import Mathlib

/-!
Verification of the query-filter compiler of the `BaseModel` data-access
class (files `src/unnamed/part_000`, the legacy variant, and
`src/unnamed/part_009`, the template variant; `parseFiltersInclude`,
`parseSorting` and `parseAttributes` are textually identical in the two
files and are embedded once).

The embedding models the JavaScript semantics the code relies on:
string `includes`/`replace`/`split` (first-occurrence replace, single-char
split), truthiness, `== null`, numeric coercion with `NaN` for undefined
and non-numeric strings, and the `try`/`catch` that wraps the whole
key-processing loop (an exception thrown while processing one key aborts
the remaining keys and the accumulated result object is returned).
-/

/-- `isPrefixOfChars pat s`: `pat` is a prefix of `s` (character lists). -/
def isPrefixOfChars : List Char → List Char → Bool
  | [], _ => true
  | _ :: _, [] => false
  | a :: as, b :: bs => a == b && isPrefixOfChars as bs

/-- `listIncl pat s`: `pat` occurs as a contiguous substring of `s`,
the semantics of JavaScript `String.prototype.includes`. -/
def listIncl (pat : List Char) : List Char → Bool
  | [] => isPrefixOfChars pat []
  | s@(_ :: rest) => isPrefixOfChars pat s || listIncl pat rest

/-- Remove the first occurrence of `pat`, the semantics of JavaScript
`String.prototype.replace(pat, '')` with a string pattern. -/
def replaceFirstL (pat : List Char) : List Char → List Char
  | [] => []
  | s@(c :: rest) =>
    if isPrefixOfChars pat s then s.drop pat.length
    else c :: replaceFirstL pat rest

/-- Split on a single separator character, the semantics of JavaScript
`String.prototype.split(sep)`: `"".split(sep) = [""]`. -/
def splitOnCharL (sep : Char) : List Char → List (List Char)
  | [] => [[]]
  | c :: rest =>
    let r := splitOnCharL sep rest
    if c == sep then [] :: r
    else
      match r with
      | [] => [[c]]
      | h :: t => (c :: h) :: t

/-- JavaScript `key.includes(pat)`. -/
def jsIncludes (s pat : String) : Bool := listIncl pat.toList s.toList

/-- JavaScript `key.replace(pat, '')` (first occurrence only). -/
def jsReplaceFirst (s pat : String) : String :=
  String.mk (replaceFirstL pat.toList s.toList)

/-- JavaScript `s.split(sep)` for a one-character separator. -/
def jsSplit (s : String) (sep : Char) : List String :=
  (splitOnCharL sep s.toList).map String.mk

/-- JavaScript `s.startsWith(p)`. -/
def jsStartsWith (s p : String) : Bool := isPrefixOfChars p.toList s.toList

/-- JavaScript `s.substring(n)` (drop the first `n` characters). -/
def jsSubstringFrom (s : String) (n : Nat) : String := String.mk (s.toList.drop n)

/-- A JavaScript number as the compiler observes it: an integer or `NaN`
(query values are decoded URL parameters, so integral numerics suffice;
non-numeric coercions yield `NaN`). -/
inductive JSNum where
  | nan : JSNum
  | int (n : Int) : JSNum
deriving DecidableEq, Repr

/-- JavaScript multiplication on the above. -/
def jsMul : JSNum → JSNum → JSNum
  | .int a, .int b => .int (a * b)
  | _, _ => .nan

/-- The values a decoded query object can hold: strings, numbers, `null`
(also standing for an explicitly present `undefined`), nested mappings
(relation filters) and arrays. -/
inductive QVal where
  | vStr (s : String)
  | vNum (n : Int)
  | vNull
  | vObj (fields : List (String × QVal))
  | vArr (items : List QVal)

/-- JavaScript truthiness of a query value. -/
def truthy : QVal → Bool
  | .vStr s => !(s == "")
  | .vNum n => !(n == 0)
  | .vNull => false
  | .vObj _ => true
  | .vArr _ => true

/-- JavaScript loose `value == null` for a present value. -/
def isNullish : QVal → Bool
  | .vNull => true
  | _ => false

/-- Parse a decimal integer literal (optional sign), JavaScript
`Number(...)` restricted to the integral strings the compiler meets;
anything else coerces to `NaN`. -/
def strToNum (s : String) : JSNum :=
  match s.toList with
  | [] => .int 0
  | '-' :: ds =>
    if ds ≠ [] ∧ ds.all Char.isDigit then
      .int (-(Int.ofNat (ds.foldl (fun a c => a * 10 + (c.toNat - 48)) 0)))
    else .nan
  | ds =>
    if ds.all Char.isDigit then
      .int (Int.ofNat (ds.foldl (fun a c => a * 10 + (c.toNat - 48)) 0))
    else .nan

/-- JavaScript unary `+` coercion of a possibly absent query value
(`+undefined = NaN`, `+null = 0`, strings via `Number`, plain objects to
`NaN`; arrays are not coerced by the compiler on any path a claim
exercises and conservatively coerce to `NaN` except the empty array). -/
def toNumber : Option QVal → JSNum
  | none => .nan
  | some (.vNum n) => .int n
  | some .vNull => .int 0
  | some (.vStr s) => strToNum s
  | some (.vObj _) => .nan
  | some (.vArr []) => .int 0
  | some (.vArr (_ :: _)) => .nan

/-- JavaScript property lookup `query[key]` on the decoded query object
(association-list model; JavaScript objects have unique keys, so the
first binding is the binding). -/
def jsLookup (q : List (String × QVal)) (k : String) : Option QVal :=
  match q with
  | [] => none
  | (k', v) :: rest => if k' == k then some v else jsLookup rest k

/-- JavaScript template-literal stringification of the values reaching
the `__con` branch (truthy scalars; nested containers print as
JavaScript does for the depth the compiler meets). -/
def jsToString : QVal → String
  | .vStr s => s
  | .vNum n => toString n
  | .vNull => "null"
  | .vObj _ => "[object Object]"
  | .vArr _ => ""

/-- A `moment` bound produced by the date-widening branches: start/end of
the calendar day of the supplied value, in UTC (`moment.utc(v)`, used by
`parseFilters`) or in local time (`moment(v)`, used by
`parseFiltersInclude`). -/
inductive MomentBound where
  | utcStartOfDay (v : QVal)
  | utcEndOfDay (v : QVal)
  | localStartOfDay (v : QVal)
  | localEndOfDay (v : QVal)

/-- A compiled `where`-clause value (the right-hand side stored under a
field name in `filters.where`). -/
inductive WhereVal where
  | eq (v : QVal)
  | isNull
  | opIn (vs : List String)
  | opNotIn (vs : List String)
  | opILike (pat : String)
  | opStartsWith (v : QVal)
  | opEndsWith (v : QVal)
  | opBetweenM (lo hi : MomentBound)
  | opBetweenList (vs : List String)
  | opLte (v : QVal)
  | opGte (v : QVal)

/-- The compiled `FindOptions` object: `where` is an insertion-ordered
association list (JavaScript object), `order`/`attributes`/`offset`/
`limit`/`include` are present only once assigned. -/
inductive FOptions where
  | mk (whereClauses : List (String × WhereVal))
       (order : Option (List (String × String)))
       (attrs : Option (List QVal))
       (offset : Option JSNum)
       (limit : Option JSNum)
       (includes : Option (List (String × FOptions)))

def FOptions.whereClauses : FOptions → List (String × WhereVal)
  | .mk w _ _ _ _ _ => w

def FOptions.order : FOptions → Option (List (String × String))
  | .mk _ o _ _ _ _ => o

def FOptions.attrs : FOptions → Option (List QVal)
  | .mk _ _ a _ _ _ => a

def FOptions.offset : FOptions → Option JSNum
  | .mk _ _ _ o _ _ => o

def FOptions.limit : FOptions → Option JSNum
  | .mk _ _ _ _ l _ => l

def FOptions.includes : FOptions → Option (List (String × FOptions))
  | .mk _ _ _ _ _ i => i

/-- The fresh `{ where: {} }` object every compile starts from. -/
def FOptions.init : FOptions := .mk [] none none none none none

/-- JavaScript object assignment `obj[k] = v`: overwrite in place if the
key exists, append otherwise. -/
def setAssoc (k : String) (v : WhereVal) :
    List (String × WhereVal) → List (String × WhereVal)
  | [] => [(k, v)]
  | (k', v') :: rest =>
    if k' == k then (k, v) :: rest else (k', v') :: setAssoc k v rest

def FOptions.setWhere : FOptions → String → WhereVal → FOptions
  | .mk w o a off l i, k, v => .mk (setAssoc k v w) o a off l i

def FOptions.setOrder : FOptions → List (String × String) → FOptions
  | .mk w _ a off l i, o => .mk w (some o) a off l i

def FOptions.setAttrs : FOptions → List QVal → FOptions
  | .mk w o _ off l i, a => .mk w o (some a) off l i

def FOptions.setOffset : FOptions → JSNum → FOptions
  | .mk w o a _ l i, off => .mk w o a (some off) l i

def FOptions.setLimit : FOptions → JSNum → FOptions
  | .mk w o a off _ i, l => .mk w o a off (some l) i

/-- `includeArray.push({association, ...child}); filters.include = includeArray`:
start from the existing array when present, a fresh one otherwise. -/
def FOptions.pushInclude : FOptions → String × FOptions → FOptions
  | .mk w o a off l i, item =>
    .mk w o a off l (some ((i.getD []) ++ [item]))

/-- Last character of a string, JavaScript `s.at(-1)` for strings. -/
def lastCharIsDash (s : String) : Bool :=
  match s.toList.getLast? with
  | some '-' => true
  | _ => false

/-- JavaScript `s.slice(0, -1)` for strings: drop the last character. -/
def dropLastChar (s : String) : String := String.mk s.toList.dropLast

/-- One iteration of the `parameters.map((item) => ...)` body of
`parseSorting`: `some pair` if the item is pushed, `none` if skipped,
`error` if the item raises (`item.at(-1)` on a number, `null` or a plain
object throws a `TypeError`; array items survive `at`/`slice` but always
fail the `filterable_attributes.includes` check because the candidate
field is not a string). -/
def sortItem (fa : List String) (item : QVal) :
    Except Unit (Option (String × String)) :=
  match item with
  | .vStr s =>
    if s == "status" || s == "status-" then
      let d := if lastCharIsDash s then "ASC" else "DESC"
      .ok (if fa.contains "status" && (d == "ASC" || d == "DESC")
           then some ("status", d) else none)
    else
      let p := if lastCharIsDash s then (dropLastChar s, "DESC") else (s, "ASC")
      .ok (if fa.contains p.1 && (p.2 == "ASC" || p.2 == "DESC")
           then some p else none)
  | .vArr _ => .ok none
  | _ => .error ()

/-- The `parameters.map` loop of `parseSorting`, collecting pushed pairs
and propagating the first thrown `TypeError`. -/
def sortLoop (fa : List String) : List QVal → Except Unit (List (String × String))
  | [] => .ok []
  | item :: rest => do
    let h ← sortItem fa item
    let t ← sortLoop fa rest
    .ok (match h with
         | some p => p :: t
         | none => t)

/-- `BaseModel.parseSorting` (identical in `part_000` and `part_009`):
split a string on `|` or take an array as-is, compile each token, fall
back to `[["id","DESC"]]` when the input is neither a string nor an array
or when no pair survives. -/
def parseSorting (fa : List String) (v : QVal) :
    Except Unit (List (String × String)) :=
  match v with
  | .vStr s =>
    (sortLoop fa ((jsSplit s '|').map QVal.vStr)).map
      (fun parsed => if parsed.isEmpty then [("id", "DESC")] else parsed)
  | .vArr items =>
    (sortLoop fa items).map
      (fun parsed => if parsed.isEmpty then [("id", "DESC")] else parsed)
  | _ => .ok [("id", "DESC")]

/-- `BaseModel.parseAttributes` (identical in both files): split a string
on `|`, take an array as-is, anything else yields `[]`. -/
def parseAttributes (v : QVal) : List QVal :=
  match v with
  | .vStr s => (jsSplit s '|').map QVal.vStr
  | .vArr items => items
  | _ => []

/-- The hard-coded date-field list of the `__is` branch of
`parseFilters` in `part_000` (lines 108-157). -/
def dateFields000 : List String :=
  ["created_at", "updated_at", "contact_date", "period_start", "period_end",
   "generated_on", "accept_date", "first_contact_date", "end_date",
   "retracted_date", "from_date", "form_date", "effective_date",
   "referral_service_accept_date", "service_ended_date",
   "supervisor_signature_date", "referral_date", "init_plan_date",
   "init_plan_supervisor_date", "review_plan_date", "review_plan_fa_date",
   "review_plan_supervisor_date", "incident_date", "ci_date", "time",
   "ci_time", "cps_sent_referral_date", "referral_received_date",
   "accepted_date", "incarcerated_from_date", "incarcerated_end_date",
   "parole_from_date", "parole_end_date",
   "start_date_of_previous_services_mental_history",
   "end_date_of_previous_services_mental_history",
   "start_date_of_current_services_mental_history",
   "end_date_of_current_services_mental_history",
   "previous_date_od_substances_used", "current_date_od_substances_used",
   "start_date_previous_chemical_dependency",
   "end_date_previous_chemical_dependency",
   "start_date_current_chemical_dependency",
   "end_date_current_chemical_dependency", "cps_involvement_start_date",
   "cps_involvement_end_date", "undisclosed_cps_involvement_start_date",
   "undisclosed_cps_involvement_end_date", "referral_accepted_date"]

/-- Fields whose `__lte` key gets a real `Op.lte` in `part_000`
(line 181); every other allowed field gets a plain equality. -/
def lteCompareFields000 : List String := ["service_date", "coupon_applicable_from"]

/-- Fields whose `__gte` key gets a real `Op.gte` in `part_000`
(line 192); every other allowed field gets a plain equality. -/
def gteCompareFields000 : List String := ["service_date", "coupon_applicable_to"]

/-- `BaseModel.isDateField` of `part_009`. -/
def commonDateFields : List String :=
  ["created_at", "updated_at", "deleted_at", "date", "timestamp"]

def isDateField (f : String) : Bool := commonDateFields.contains f

/-- The date-field list of the `__is` branch of `parseFiltersInclude`
(both files, line 310 resp. 299). -/
def includeDateFields : List String := ["created_at", "updated_at"]

/-- `query[key].split(sep)`: only strings have `split`; every other value
throws a `TypeError` (the throw happens inside the allow-list guard). -/
def splitQ (v : QVal) (sep : Char) : Except Unit (List String) :=
  match v with
  | .vStr s => .ok (jsSplit s sep)
  | _ => .error ()

/-- The recurring source pattern
`if (this.filterable_attributes.includes(base_key)) { filters.where[base_key] = X }`
for a clause value already at hand. -/
def addIfAllowed (fa : List String) (st : FOptions) (base : String)
    (wv : WhereVal) : FOptions :=
  if fa.contains base then st.setWhere base wv else st

/-- The same pattern when computing the clause value may throw (`split`
on a non-string): the value is evaluated only inside the allow-list
guard, so a disallowed field never throws. -/
def addIfAllowedE (fa : List String) (st : FOptions) (base : String)
    (mkwv : Except Unit WhereVal) : Except Unit FOptions :=
  if fa.contains base then mkwv.map (st.setWhere base) else .ok st

/-- The `if (key === 'sort') filters.order = this.parseSorting(query.sort)`
statement, common to all three key loops. -/
def sortStage (fa : List String) (st : FOptions) (k : String) (v : QVal) :
    Except Unit FOptions :=
  if k == "sort" then (parseSorting fa v).map st.setOrder else .ok st

/-- The `if (key === 'attributes') filters.attributes = this.parseAttributes(...)`
statement, common to all three key loops. -/
def attrsStage (st : FOptions) (k : String) (v : QVal) : FOptions :=
  if k == "attributes" then st.setAttrs (parseAttributes v) else st

/-- The body of the `if (list)` block of `BaseModel.parseFilters` in
`part_000` (lines 69-223): pagination keys, the operator-suffix chain on
truthy values, and the `== null` branch. -/
def listStage000 (fa : List String) (q : List (String × QVal))
    (st : FOptions) (k : String) (v : QVal) : Except Unit FOptions :=
  if k == "page" then
    .ok (st.setOffset (jsMul (toNumber (jsLookup q "page"))
                             (toNumber (jsLookup q "size"))))
  else if k == "size" then
    .ok (st.setLimit (toNumber (jsLookup q "size")))
  else if truthy v then
    if jsIncludes k "__in" then
      addIfAllowedE fa st (jsReplaceFirst k "__in")
        ((splitQ v '|').map WhereVal.opIn)
    else if jsIncludes k "__con" then
      addIfAllowedE fa st (jsReplaceFirst k "__con")
        (.ok (.opILike ("%" ++ jsToString v ++ "%")))
    else if jsIncludes k "__sw" then
      addIfAllowedE fa st (jsReplaceFirst k "__sw") (.ok (.opStartsWith v))
    else if jsIncludes k "__ew" then
      addIfAllowedE fa st (jsReplaceFirst k "__ew") (.ok (.opEndsWith v))
    else if jsIncludes k "__is" then
      let base := jsReplaceFirst k "__is"
      addIfAllowedE fa st base
        (.ok (if dateFields000.contains base then
                .opBetweenM (.utcStartOfDay v) (.utcEndOfDay v)
              else .eq v))
    else if jsIncludes k "__ne" then
      addIfAllowedE fa st (jsReplaceFirst k "__ne")
        ((splitQ v '|').map WhereVal.opNotIn)
    else if jsIncludes k "__lte" then
      let base := jsReplaceFirst k "__lte"
      addIfAllowedE fa st base
        (.ok (if lteCompareFields000.contains base then .opLte v else .eq v))
    else if jsIncludes k "__gte" then
      let base := jsReplaceFirst k "__gte"
      addIfAllowedE fa st base
        (.ok (if gteCompareFields000.contains base then .opGte v else .eq v))
    else if jsIncludes k "__nin" then
      addIfAllowedE fa st (jsReplaceFirst k "__nin")
        ((splitQ v '|').map WhereVal.opNotIn)
    else if jsIncludes k "__bet" then
      addIfAllowedE fa st (jsReplaceFirst k "__bet")
        ((splitQ v ',').map WhereVal.opBetweenList)
    else .ok st
  else if isNullish v then
    .ok (addIfAllowed fa st (jsReplaceFirst k "__is") .isNull)
  else .ok st

/-- One iteration of the `Object.keys(query).forEach` body of
`BaseModel.parseFilters` in `part_000` (lines 60-224): the sort and
attributes statements, then the `if (list)` block. -/
def frStep (fa : List String) (q : List (String × QVal)) (lst : Bool)
    (st : FOptions) (k : String) (v : QVal) : Except Unit FOptions := do
  let st ← sortStage fa st k v
  let st := attrsStage st k v
  if lst then listStage000 fa q st k v else .ok st

/-- The `Object.keys(query).forEach` loop inside the `try`: an exception
thrown while processing one key aborts the loop and the `catch` returns
the object accumulated so far. -/
def runKeys (step : FOptions → String → QVal → Except Unit FOptions) :
    List (String × QVal) → FOptions → FOptions
  | [], st => st
  | (k, v) :: rest, st =>
    match step st k v with
    | .ok st2 => runKeys step rest st2
    | .error _ => st

/-- The same loop without the `catch`: `.ok` iff no key throws. -/
def runKeysStrict (step : FOptions → String → QVal → Except Unit FOptions) :
    List (String × QVal) → FOptions → Except Unit FOptions
  | [], st => .ok st
  | (k, v) :: rest, st => do
    let st2 ← step st k v
    runKeysStrict step rest st2

/-- `BaseModel.parseFilters` of `part_000` (the legacy variant). -/
def parseFilters (fa : List String) (q : List (String × QVal)) (lst : Bool) :
    FOptions :=
  runKeys (frStep fa q lst) q FOptions.init

/-- The body of the `if (list)` block of `BaseModel.parseFilters` in
`part_009` (lines 123-213): same shape as `part_000` but the date check
goes through `isDateField` and `__lte`/`__gte` always emit real
comparison operators. -/
def listStageT (fa : List String) (q : List (String × QVal))
    (st : FOptions) (k : String) (v : QVal) : Except Unit FOptions :=
  if k == "page" then
    .ok (st.setOffset (jsMul (toNumber (jsLookup q "page"))
                             (toNumber (jsLookup q "size"))))
  else if k == "size" then
    .ok (st.setLimit (toNumber (jsLookup q "size")))
  else if truthy v then
    if jsIncludes k "__in" then
      addIfAllowedE fa st (jsReplaceFirst k "__in")
        ((splitQ v '|').map WhereVal.opIn)
    else if jsIncludes k "__con" then
      addIfAllowedE fa st (jsReplaceFirst k "__con")
        (.ok (.opILike ("%" ++ jsToString v ++ "%")))
    else if jsIncludes k "__sw" then
      addIfAllowedE fa st (jsReplaceFirst k "__sw") (.ok (.opStartsWith v))
    else if jsIncludes k "__ew" then
      addIfAllowedE fa st (jsReplaceFirst k "__ew") (.ok (.opEndsWith v))
    else if jsIncludes k "__is" then
      let base := jsReplaceFirst k "__is"
      addIfAllowedE fa st base
        (.ok (if isDateField base then
                .opBetweenM (.utcStartOfDay v) (.utcEndOfDay v)
              else .eq v))
    else if jsIncludes k "__ne" then
      addIfAllowedE fa st (jsReplaceFirst k "__ne")
        ((splitQ v '|').map WhereVal.opNotIn)
    else if jsIncludes k "__lte" then
      addIfAllowedE fa st (jsReplaceFirst k "__lte") (.ok (.opLte v))
    else if jsIncludes k "__gte" then
      addIfAllowedE fa st (jsReplaceFirst k "__gte") (.ok (.opGte v))
    else if jsIncludes k "__nin" then
      addIfAllowedE fa st (jsReplaceFirst k "__nin")
        ((splitQ v '|').map WhereVal.opNotIn)
    else if jsIncludes k "__bet" then
      addIfAllowedE fa st (jsReplaceFirst k "__bet")
        ((splitQ v ',').map WhereVal.opBetweenList)
    else .ok st
  else if isNullish v then
    .ok (addIfAllowed fa st (jsReplaceFirst k "__is") .isNull)
  else .ok st

/-- One iteration of the key loop of `BaseModel.parseFilters` in
`part_009` (lines 114-214). -/
def frStepT (fa : List String) (q : List (String × QVal)) (lst : Bool)
    (st : FOptions) (k : String) (v : QVal) : Except Unit FOptions := do
  let st ← sortStage fa st k v
  let st := attrsStage st k v
  if lst then listStageT fa q st k v else .ok st

/-- `BaseModel.parseFilters` of `part_009` (the template variant). -/
def parseFiltersT (fa : List String) (q : List (String × QVal)) (lst : Bool) :
    FOptions :=
  runKeys (frStepT fa q lst) q FOptions.init

/-- Index an array as JavaScript `Object.keys` sees it: keys `"0"`,
`"1"`, ... (an array reaching the `typeof === 'object'` test is handed to
the recursive call like any object). -/
def indexPairs (n : Nat) : List QVal → List (String × QVal)
  | [] => []
  | v :: rest => (toString n, v) :: indexPairs (n + 1) rest

/-- `typeof query[key] === 'object' ? query[key] : {}` as a key/value
list (the value is truthy here, so `null` cannot reach this test). -/
def toIncludeQuery (v : QVal) : List (String × QVal) :=
  match v with
  | .vObj fields => fields
  | .vArr items => indexPairs 0 items
  | _ => []

/-- The body of the `if (list)` block of `BaseModel.parseFiltersInclude`
(identical in `part_000` lines 248-331 and `part_009` lines 240-319),
parameterised over the compiler `childC` used for a nested
`include_<relation>` query. Notable differences from the flat variant:
an `include_` prefix is handled before the operator suffixes, only the
suffixes `__in`, `__con`, `__sw`, `__ew`, `__is`, `__ne` are recognised,
the `__is` date set is just `created_at`/`updated_at` with local-time
`moment(...)` bounds, and there is no `== null` branch. -/
def listStageI (fa : List String) (q : List (String × QVal))
    (childC : List (String × QVal) → FOptions)
    (st : FOptions) (k : String) (v : QVal) : Except Unit FOptions :=
  if k == "page" then
    .ok (st.setOffset (jsMul (toNumber (jsLookup q "page"))
                             (toNumber (jsLookup q "size"))))
  else if k == "size" then
    .ok (st.setLimit (toNumber (jsLookup q "size")))
  else if truthy v then
    if jsStartsWith k "include_" then
      .ok (st.pushInclude (jsSubstringFrom k 8, childC (toIncludeQuery v)))
    else if jsIncludes k "__in" then
      addIfAllowedE fa st (jsReplaceFirst k "__in")
        ((splitQ v '|').map WhereVal.opIn)
    else if jsIncludes k "__con" then
      addIfAllowedE fa st (jsReplaceFirst k "__con")
        (.ok (.opILike ("%" ++ jsToString v ++ "%")))
    else if jsIncludes k "__sw" then
      addIfAllowedE fa st (jsReplaceFirst k "__sw") (.ok (.opStartsWith v))
    else if jsIncludes k "__ew" then
      addIfAllowedE fa st (jsReplaceFirst k "__ew") (.ok (.opEndsWith v))
    else if jsIncludes k "__is" then
      let base := jsReplaceFirst k "__is"
      addIfAllowedE fa st base
        (.ok (if includeDateFields.contains base then
                .opBetweenM (.localStartOfDay v) (.localEndOfDay v)
              else .eq v))
    else if jsIncludes k "__ne" then
      addIfAllowedE fa st (jsReplaceFirst k "__ne")
        ((splitQ v '|').map WhereVal.opNotIn)
    else .ok st
  else .ok st

/-- One iteration of the key loop of `BaseModel.parseFiltersInclude`. -/
def piStep (fa : List String) (q : List (String × QVal))
    (childC : List (String × QVal) → FOptions) (lst : Bool)
    (st : FOptions) (k : String) (v : QVal) : Except Unit FOptions := do
  let st ← sortStage fa st k v
  let st := attrsStage st k v
  if lst then listStageI fa q childC st k v else .ok st

/-- The `list = false` instance of `BaseModel.parseFiltersInclude`. The
JavaScript function calls itself exactly once, as
`this.parseFiltersInclude(includeQuery, false)`; with `list = false`
every filter branch — the `include_` branch among them — sits inside the
skipped `if (list)` block, so that instance can never invoke the nested
compiler and the recursion closes after one unfolding. The child
compiler of this instance is therefore inert and instantiated with a
constant (`parseFiltersInclude_false_inert` below checks the
instantiation is irrelevant). -/
def parseFiltersIncludeSingle (fa : List String) (q : List (String × QVal)) :
    FOptions :=
  runKeys (piStep fa q (fun _ => FOptions.init) false) q FOptions.init

/-- `BaseModel.parseFiltersInclude` (identical in both files): the
relation-aware variant; a nested `include_<relation>` query is compiled
by the `list = false` instance. -/
def parseFiltersInclude (fa : List String) (q : List (String × QVal))
    (lst : Bool) : FOptions :=
  runKeys (piStep fa q (fun nested => parseFiltersIncludeSingle fa nested) lst)
    q FOptions.init

theorem parseFiltersInclude_false_inert (fa : List String)
    (q : List (String × QVal)) :
    parseFiltersInclude fa q false = parseFiltersIncludeSingle fa q := rfl

@[simp] theorem FOptions.init_whereClauses : FOptions.init.whereClauses = [] := rfl
@[simp] theorem FOptions.init_order : FOptions.init.order = none := rfl
@[simp] theorem FOptions.init_attrs : FOptions.init.attrs = none := rfl
@[simp] theorem FOptions.init_offset : FOptions.init.offset = none := rfl
@[simp] theorem FOptions.init_limit : FOptions.init.limit = none := rfl
@[simp] theorem FOptions.init_includes : FOptions.init.includes = none := rfl

@[simp] theorem FOptions.setWhere_whereClauses (st : FOptions) (k : String)
    (v : WhereVal) : (st.setWhere k v).whereClauses = setAssoc k v st.whereClauses := by
  cases st; rfl
@[simp] theorem FOptions.setWhere_order (st : FOptions) (k : String)
    (v : WhereVal) : (st.setWhere k v).order = st.order := by cases st; rfl
@[simp] theorem FOptions.setWhere_attrs (st : FOptions) (k : String)
    (v : WhereVal) : (st.setWhere k v).attrs = st.attrs := by cases st; rfl
@[simp] theorem FOptions.setWhere_offset (st : FOptions) (k : String)
    (v : WhereVal) : (st.setWhere k v).offset = st.offset := by cases st; rfl
@[simp] theorem FOptions.setWhere_limit (st : FOptions) (k : String)
    (v : WhereVal) : (st.setWhere k v).limit = st.limit := by cases st; rfl
@[simp] theorem FOptions.setWhere_includes (st : FOptions) (k : String)
    (v : WhereVal) : (st.setWhere k v).includes = st.includes := by cases st; rfl

@[simp] theorem FOptions.setOrder_whereClauses (st : FOptions)
    (o : List (String × String)) : (st.setOrder o).whereClauses = st.whereClauses := by
  cases st; rfl
@[simp] theorem FOptions.setOrder_order (st : FOptions)
    (o : List (String × String)) : (st.setOrder o).order = some o := by cases st; rfl
@[simp] theorem FOptions.setOrder_attrs (st : FOptions)
    (o : List (String × String)) : (st.setOrder o).attrs = st.attrs := by cases st; rfl
@[simp] theorem FOptions.setOrder_offset (st : FOptions)
    (o : List (String × String)) : (st.setOrder o).offset = st.offset := by cases st; rfl
@[simp] theorem FOptions.setOrder_limit (st : FOptions)
    (o : List (String × String)) : (st.setOrder o).limit = st.limit := by cases st; rfl
@[simp] theorem FOptions.setOrder_includes (st : FOptions)
    (o : List (String × String)) : (st.setOrder o).includes = st.includes := by
  cases st; rfl

@[simp] theorem FOptions.setAttrs_whereClauses (st : FOptions) (a : List QVal) :
    (st.setAttrs a).whereClauses = st.whereClauses := by cases st; rfl
@[simp] theorem FOptions.setAttrs_order (st : FOptions) (a : List QVal) :
    (st.setAttrs a).order = st.order := by cases st; rfl
@[simp] theorem FOptions.setAttrs_attrs (st : FOptions) (a : List QVal) :
    (st.setAttrs a).attrs = some a := by cases st; rfl
@[simp] theorem FOptions.setAttrs_offset (st : FOptions) (a : List QVal) :
    (st.setAttrs a).offset = st.offset := by cases st; rfl
@[simp] theorem FOptions.setAttrs_limit (st : FOptions) (a : List QVal) :
    (st.setAttrs a).limit = st.limit := by cases st; rfl
@[simp] theorem FOptions.setAttrs_includes (st : FOptions) (a : List QVal) :
    (st.setAttrs a).includes = st.includes := by cases st; rfl

@[simp] theorem FOptions.setOffset_whereClauses (st : FOptions) (n : JSNum) :
    (st.setOffset n).whereClauses = st.whereClauses := by cases st; rfl
@[simp] theorem FOptions.setOffset_order (st : FOptions) (n : JSNum) :
    (st.setOffset n).order = st.order := by cases st; rfl
@[simp] theorem FOptions.setOffset_attrs (st : FOptions) (n : JSNum) :
    (st.setOffset n).attrs = st.attrs := by cases st; rfl
@[simp] theorem FOptions.setOffset_offset (st : FOptions) (n : JSNum) :
    (st.setOffset n).offset = some n := by cases st; rfl
@[simp] theorem FOptions.setOffset_limit (st : FOptions) (n : JSNum) :
    (st.setOffset n).limit = st.limit := by cases st; rfl
@[simp] theorem FOptions.setOffset_includes (st : FOptions) (n : JSNum) :
    (st.setOffset n).includes = st.includes := by cases st; rfl

@[simp] theorem FOptions.setLimit_whereClauses (st : FOptions) (n : JSNum) :
    (st.setLimit n).whereClauses = st.whereClauses := by cases st; rfl
@[simp] theorem FOptions.setLimit_order (st : FOptions) (n : JSNum) :
    (st.setLimit n).order = st.order := by cases st; rfl
@[simp] theorem FOptions.setLimit_attrs (st : FOptions) (n : JSNum) :
    (st.setLimit n).attrs = st.attrs := by cases st; rfl
@[simp] theorem FOptions.setLimit_offset (st : FOptions) (n : JSNum) :
    (st.setLimit n).offset = st.offset := by cases st; rfl
@[simp] theorem FOptions.setLimit_limit (st : FOptions) (n : JSNum) :
    (st.setLimit n).limit = some n := by cases st; rfl
@[simp] theorem FOptions.setLimit_includes (st : FOptions) (n : JSNum) :
    (st.setLimit n).includes = st.includes := by cases st; rfl

@[simp] theorem FOptions.pushInclude_whereClauses (st : FOptions)
    (item : String × FOptions) :
    (st.pushInclude item).whereClauses = st.whereClauses := by cases st; rfl
@[simp] theorem FOptions.pushInclude_order (st : FOptions)
    (item : String × FOptions) : (st.pushInclude item).order = st.order := by
  cases st; rfl
@[simp] theorem FOptions.pushInclude_attrs (st : FOptions)
    (item : String × FOptions) : (st.pushInclude item).attrs = st.attrs := by
  cases st; rfl
@[simp] theorem FOptions.pushInclude_offset (st : FOptions)
    (item : String × FOptions) : (st.pushInclude item).offset = st.offset := by
  cases st; rfl
@[simp] theorem FOptions.pushInclude_limit (st : FOptions)
    (item : String × FOptions) : (st.pushInclude item).limit = st.limit := by
  cases st; rfl
@[simp] theorem FOptions.pushInclude_includes (st : FOptions)
    (item : String × FOptions) :
    (st.pushInclude item).includes = some ((st.includes.getD []) ++ [item]) := by
  cases st; rfl

theorem addIfAllowedE_ok {fa : List String} {st : FOptions} {b : String}
    {m : Except Unit WhereVal} {st' : FOptions}
    (h : addIfAllowedE fa st b m = .ok st') :
    st' = st ∨ (fa.contains b = true ∧ ∃ wv, st' = st.setWhere b wv) := by
  unfold addIfAllowedE at h
  split at h
  · cases m with
    | error e => simp [Except.map] at h
    | ok wv =>
      right
      refine ⟨by assumption, wv, ?_⟩
      simp [Except.map] at h
      exact h.symm
  · left
    cases h
    rfl

/-- Field effects of a successful `addIfAllowedE`: everything but the
`where` object is untouched, and the `where` object is either untouched
or extended at an allow-listed field. -/
theorem addIfAllowedE_fields {fa : List String} {st : FOptions} {b : String}
    {m : Except Unit WhereVal} {st' : FOptions}
    (h : addIfAllowedE fa st b m = .ok st') :
    st'.order = st.order ∧ st'.attrs = st.attrs ∧ st'.offset = st.offset ∧
    st'.limit = st.limit ∧ st'.includes = st.includes ∧
    (st'.whereClauses = st.whereClauses ∨
      ∃ b' wv, fa.contains b' = true ∧
        st'.whereClauses = setAssoc b' wv st.whereClauses) := by
  rcases addIfAllowedE_ok h with rfl | ⟨hb, wv, rfl⟩
  · exact ⟨rfl, rfl, rfl, rfl, rfl, Or.inl rfl⟩
  · exact ⟨by simp, by simp, by simp, by simp, by simp,
      Or.inr ⟨b, wv, hb, by simp⟩⟩

/-- Field effects of `addIfAllowed` (same statement, non-throwing form). -/
theorem addIfAllowed_fields (fa : List String) (st : FOptions) (b : String)
    (wv : WhereVal) :
    (addIfAllowed fa st b wv).order = st.order ∧
    (addIfAllowed fa st b wv).attrs = st.attrs ∧
    (addIfAllowed fa st b wv).offset = st.offset ∧
    (addIfAllowed fa st b wv).limit = st.limit ∧
    (addIfAllowed fa st b wv).includes = st.includes ∧
    ((addIfAllowed fa st b wv).whereClauses = st.whereClauses ∨
      ∃ b' wv', fa.contains b' = true ∧
        (addIfAllowed fa st b wv).whereClauses = setAssoc b' wv' st.whereClauses) := by
  unfold addIfAllowed
  split
  · exact ⟨by simp, by simp, by simp, by simp, by simp,
      Or.inr ⟨b, wv, by assumption, by simp⟩⟩
  · exact ⟨rfl, rfl, rfl, rfl, rfl, Or.inl rfl⟩

/-- Field effects of a successful `sortStage`: only `order` can change,
and then only to a successful `parseSorting` result. -/
theorem sortStage_ok {fa : List String} {st : FOptions} {k : String}
    {v : QVal} {st' : FOptions} (h : sortStage fa st k v = .ok st') :
    st'.whereClauses = st.whereClauses ∧ st'.attrs = st.attrs ∧
    st'.offset = st.offset ∧ st'.limit = st.limit ∧
    st'.includes = st.includes ∧
    (st'.order = st.order ∨ ∃ l, parseSorting fa v = .ok l ∧ st'.order = some l) := by
  unfold sortStage at h
  split at h
  · cases hp : parseSorting fa v with
    | error e => rw [hp] at h; simp [Except.map] at h
    | ok l =>
      rw [hp] at h
      simp [Except.map] at h
      subst h
      exact ⟨by simp, by simp, by simp, by simp, by simp, Or.inr ⟨l, rfl, by simp⟩⟩
  · cases h
    exact ⟨rfl, rfl, rfl, rfl, rfl, Or.inl rfl⟩

@[simp] theorem attrsStage_whereClauses (st : FOptions) (k : String) (v : QVal) :
    (attrsStage st k v).whereClauses = st.whereClauses := by
  unfold attrsStage
  split
  · simp
  · rfl

@[simp] theorem attrsStage_order (st : FOptions) (k : String) (v : QVal) :
    (attrsStage st k v).order = st.order := by
  unfold attrsStage
  split
  · simp
  · rfl

@[simp] theorem attrsStage_offset (st : FOptions) (k : String) (v : QVal) :
    (attrsStage st k v).offset = st.offset := by
  unfold attrsStage
  split
  · simp
  · rfl

@[simp] theorem attrsStage_limit (st : FOptions) (k : String) (v : QVal) :
    (attrsStage st k v).limit = st.limit := by
  unfold attrsStage
  split
  · simp
  · rfl

@[simp] theorem attrsStage_includes (st : FOptions) (k : String) (v : QVal) :
    (attrsStage st k v).includes = st.includes := by
  unfold attrsStage
  split
  · simp
  · rfl

/-- Field effects of a successful `listStage000`: `order` and `attrs`
are never touched by the `if (list)` block, and the `where` object only
ever gains clauses at allow-listed fields. -/
theorem listStage000_ok {fa : List String} {q : List (String × QVal)}
    {st : FOptions} {k : String} {v : QVal} {st' : FOptions}
    (h : listStage000 fa q st k v = .ok st') :
    st'.order = st.order ∧ st'.attrs = st.attrs ∧
    (st'.whereClauses = st.whereClauses ∨
      ∃ b wv, fa.contains b = true ∧
        st'.whereClauses = setAssoc b wv st.whereClauses) := by
  unfold listStage000 at h
  by_cases c1 : (k == "page") = true
  · rw [if_pos c1] at h
    cases h
    exact ⟨by simp, by simp, Or.inl (by simp)⟩
  · rw [if_neg c1] at h
    by_cases c2 : (k == "size") = true
    · rw [if_pos c2] at h
      cases h
      exact ⟨by simp, by simp, Or.inl (by simp)⟩
    · rw [if_neg c2] at h
      by_cases c3 : (truthy v) = true
      · rw [if_pos c3] at h
        by_cases c4 : (jsIncludes k "__in") = true
        · rw [if_pos c4] at h
          obtain ⟨eo, ea, _, _, _, ew⟩ := addIfAllowedE_fields h
          exact ⟨eo, ea, ew⟩
        · rw [if_neg c4] at h
          by_cases c5 : (jsIncludes k "__con") = true
          · rw [if_pos c5] at h
            obtain ⟨eo, ea, _, _, _, ew⟩ := addIfAllowedE_fields h
            exact ⟨eo, ea, ew⟩
          · rw [if_neg c5] at h
            by_cases c6 : (jsIncludes k "__sw") = true
            · rw [if_pos c6] at h
              obtain ⟨eo, ea, _, _, _, ew⟩ := addIfAllowedE_fields h
              exact ⟨eo, ea, ew⟩
            · rw [if_neg c6] at h
              by_cases c7 : (jsIncludes k "__ew") = true
              · rw [if_pos c7] at h
                obtain ⟨eo, ea, _, _, _, ew⟩ := addIfAllowedE_fields h
                exact ⟨eo, ea, ew⟩
              · rw [if_neg c7] at h
                by_cases c8 : (jsIncludes k "__is") = true
                · rw [if_pos c8] at h
                  obtain ⟨eo, ea, _, _, _, ew⟩ := addIfAllowedE_fields h
                  exact ⟨eo, ea, ew⟩
                · rw [if_neg c8] at h
                  by_cases c9 : (jsIncludes k "__ne") = true
                  · rw [if_pos c9] at h
                    obtain ⟨eo, ea, _, _, _, ew⟩ := addIfAllowedE_fields h
                    exact ⟨eo, ea, ew⟩
                  · rw [if_neg c9] at h
                    by_cases c10 : (jsIncludes k "__lte") = true
                    · rw [if_pos c10] at h
                      obtain ⟨eo, ea, _, _, _, ew⟩ := addIfAllowedE_fields h
                      exact ⟨eo, ea, ew⟩
                    · rw [if_neg c10] at h
                      by_cases c11 : (jsIncludes k "__gte") = true
                      · rw [if_pos c11] at h
                        obtain ⟨eo, ea, _, _, _, ew⟩ := addIfAllowedE_fields h
                        exact ⟨eo, ea, ew⟩
                      · rw [if_neg c11] at h
                        by_cases c12 : (jsIncludes k "__nin") = true
                        · rw [if_pos c12] at h
                          obtain ⟨eo, ea, _, _, _, ew⟩ := addIfAllowedE_fields h
                          exact ⟨eo, ea, ew⟩
                        · rw [if_neg c12] at h
                          by_cases c13 : (jsIncludes k "__bet") = true
                          · rw [if_pos c13] at h
                            obtain ⟨eo, ea, _, _, _, ew⟩ := addIfAllowedE_fields h
                            exact ⟨eo, ea, ew⟩
                          · rw [if_neg c13] at h
                            cases h
                            exact ⟨rfl, rfl, Or.inl rfl⟩
      · rw [if_neg c3] at h
        by_cases cn : (isNullish v) = true
        · rw [if_pos cn] at h
          cases h
          obtain ⟨eo, ea, _, _, _, ew⟩ := addIfAllowed_fields fa st (jsReplaceFirst k "__is") WhereVal.isNull
          exact ⟨eo, ea, ew⟩
        · rw [if_neg cn] at h
          cases h
          exact ⟨rfl, rfl, Or.inl rfl⟩

/-- Field effects of a successful `listStageT` (same statement). -/
theorem listStageT_ok {fa : List String} {q : List (String × QVal)}
    {st : FOptions} {k : String} {v : QVal} {st' : FOptions}
    (h : listStageT fa q st k v = .ok st') :
    st'.order = st.order ∧ st'.attrs = st.attrs ∧
    (st'.whereClauses = st.whereClauses ∨
      ∃ b wv, fa.contains b = true ∧
        st'.whereClauses = setAssoc b wv st.whereClauses) := by
  unfold listStageT at h
  by_cases c1 : (k == "page") = true
  · rw [if_pos c1] at h
    cases h
    exact ⟨by simp, by simp, Or.inl (by simp)⟩
  · rw [if_neg c1] at h
    by_cases c2 : (k == "size") = true
    · rw [if_pos c2] at h
      cases h
      exact ⟨by simp, by simp, Or.inl (by simp)⟩
    · rw [if_neg c2] at h
      by_cases c3 : (truthy v) = true
      · rw [if_pos c3] at h
        by_cases c4 : (jsIncludes k "__in") = true
        · rw [if_pos c4] at h
          obtain ⟨eo, ea, _, _, _, ew⟩ := addIfAllowedE_fields h
          exact ⟨eo, ea, ew⟩
        · rw [if_neg c4] at h
          by_cases c5 : (jsIncludes k "__con") = true
          · rw [if_pos c5] at h
            obtain ⟨eo, ea, _, _, _, ew⟩ := addIfAllowedE_fields h
            exact ⟨eo, ea, ew⟩
          · rw [if_neg c5] at h
            by_cases c6 : (jsIncludes k "__sw") = true
            · rw [if_pos c6] at h
              obtain ⟨eo, ea, _, _, _, ew⟩ := addIfAllowedE_fields h
              exact ⟨eo, ea, ew⟩
            · rw [if_neg c6] at h
              by_cases c7 : (jsIncludes k "__ew") = true
              · rw [if_pos c7] at h
                obtain ⟨eo, ea, _, _, _, ew⟩ := addIfAllowedE_fields h
                exact ⟨eo, ea, ew⟩
              · rw [if_neg c7] at h
                by_cases c8 : (jsIncludes k "__is") = true
                · rw [if_pos c8] at h
                  obtain ⟨eo, ea, _, _, _, ew⟩ := addIfAllowedE_fields h
                  exact ⟨eo, ea, ew⟩
                · rw [if_neg c8] at h
                  by_cases c9 : (jsIncludes k "__ne") = true
                  · rw [if_pos c9] at h
                    obtain ⟨eo, ea, _, _, _, ew⟩ := addIfAllowedE_fields h
                    exact ⟨eo, ea, ew⟩
                  · rw [if_neg c9] at h
                    by_cases c10 : (jsIncludes k "__lte") = true
                    · rw [if_pos c10] at h
                      obtain ⟨eo, ea, _, _, _, ew⟩ := addIfAllowedE_fields h
                      exact ⟨eo, ea, ew⟩
                    · rw [if_neg c10] at h
                      by_cases c11 : (jsIncludes k "__gte") = true
                      · rw [if_pos c11] at h
                        obtain ⟨eo, ea, _, _, _, ew⟩ := addIfAllowedE_fields h
                        exact ⟨eo, ea, ew⟩
                      · rw [if_neg c11] at h
                        by_cases c12 : (jsIncludes k "__nin") = true
                        · rw [if_pos c12] at h
                          obtain ⟨eo, ea, _, _, _, ew⟩ := addIfAllowedE_fields h
                          exact ⟨eo, ea, ew⟩
                        · rw [if_neg c12] at h
                          by_cases c13 : (jsIncludes k "__bet") = true
                          · rw [if_pos c13] at h
                            obtain ⟨eo, ea, _, _, _, ew⟩ := addIfAllowedE_fields h
                            exact ⟨eo, ea, ew⟩
                          · rw [if_neg c13] at h
                            cases h
                            exact ⟨rfl, rfl, Or.inl rfl⟩
      · rw [if_neg c3] at h
        by_cases cn : (isNullish v) = true
        · rw [if_pos cn] at h
          cases h
          obtain ⟨eo, ea, _, _, _, ew⟩ := addIfAllowed_fields fa st (jsReplaceFirst k "__is") WhereVal.isNull
          exact ⟨eo, ea, ew⟩
        · rw [if_neg cn] at h
          cases h
          exact ⟨rfl, rfl, Or.inl rfl⟩

/-- Field effects of a successful `listStageI` (same statement; the
`include_` branch touches only `include`). -/
theorem listStageI_ok {fa : List String} {q : List (String × QVal)}
    {childC : List (String × QVal) → FOptions}
    {st : FOptions} {k : String} {v : QVal} {st' : FOptions}
    (h : listStageI fa q childC st k v = .ok st') :
    st'.order = st.order ∧ st'.attrs = st.attrs ∧
    (st'.whereClauses = st.whereClauses ∨
      ∃ b wv, fa.contains b = true ∧
        st'.whereClauses = setAssoc b wv st.whereClauses) := by
  unfold listStageI at h
  by_cases c1 : (k == "page") = true
  · rw [if_pos c1] at h
    cases h
    exact ⟨by simp, by simp, Or.inl (by simp)⟩
  · rw [if_neg c1] at h
    by_cases c2 : (k == "size") = true
    · rw [if_pos c2] at h
      cases h
      exact ⟨by simp, by simp, Or.inl (by simp)⟩
    · rw [if_neg c2] at h
      by_cases c3 : (truthy v) = true
      · rw [if_pos c3] at h
        by_cases c4 : (jsStartsWith k "include_") = true
        · rw [if_pos c4] at h
          cases h
          exact ⟨by simp, by simp, Or.inl (by simp)⟩
        · rw [if_neg c4] at h
          by_cases c5 : (jsIncludes k "__in") = true
          · rw [if_pos c5] at h
            obtain ⟨eo, ea, _, _, _, ew⟩ := addIfAllowedE_fields h
            exact ⟨eo, ea, ew⟩
          · rw [if_neg c5] at h
            by_cases c6 : (jsIncludes k "__con") = true
            · rw [if_pos c6] at h
              obtain ⟨eo, ea, _, _, _, ew⟩ := addIfAllowedE_fields h
              exact ⟨eo, ea, ew⟩
            · rw [if_neg c6] at h
              by_cases c7 : (jsIncludes k "__sw") = true
              · rw [if_pos c7] at h
                obtain ⟨eo, ea, _, _, _, ew⟩ := addIfAllowedE_fields h
                exact ⟨eo, ea, ew⟩
              · rw [if_neg c7] at h
                by_cases c8 : (jsIncludes k "__ew") = true
                · rw [if_pos c8] at h
                  obtain ⟨eo, ea, _, _, _, ew⟩ := addIfAllowedE_fields h
                  exact ⟨eo, ea, ew⟩
                · rw [if_neg c8] at h
                  by_cases c9 : (jsIncludes k "__is") = true
                  · rw [if_pos c9] at h
                    obtain ⟨eo, ea, _, _, _, ew⟩ := addIfAllowedE_fields h
                    exact ⟨eo, ea, ew⟩
                  · rw [if_neg c9] at h
                    by_cases c10 : (jsIncludes k "__ne") = true
                    · rw [if_pos c10] at h
                      obtain ⟨eo, ea, _, _, _, ew⟩ := addIfAllowedE_fields h
                      exact ⟨eo, ea, ew⟩
                    · rw [if_neg c10] at h
                      cases h
                      exact ⟨rfl, rfl, Or.inl rfl⟩
      · rw [if_neg c3] at h
        cases h
        exact ⟨rfl, rfl, Or.inl rfl⟩

@[simp] theorem exceptBind_ok {α β : Type} (a : α) (f : α → Except Unit β) :
    (Except.ok a >>= f) = f a := rfl

@[simp] theorem exceptBind_error {α β : Type} (e : Unit)
    (f : α → Except Unit β) :
    ((Except.error e : Except Unit α) >>= f) = .error e := rfl

/-- Decompose a successful `frStep` into its three stages. -/
theorem frStep_ok_elim {fa : List String} {q : List (String × QVal)}
    {lst : Bool} {st : FOptions} {k : String} {v : QVal} {st' : FOptions}
    (h : frStep fa q lst st k v = .ok st') :
    ∃ s1, sortStage fa st k v = .ok s1 ∧
      ((lst = true ∧ listStage000 fa q (attrsStage s1 k v) k v = .ok st') ∨
       (lst = false ∧ st' = attrsStage s1 k v)) := by
  unfold frStep at h
  cases hs : sortStage fa st k v with
  | error e => rw [hs] at h; simp at h
  | ok s1 =>
    rw [hs] at h
    simp only [exceptBind_ok] at h
    refine ⟨s1, rfl, ?_⟩
    cases lst
    · right
      rw [if_neg (by simp)] at h
      cases h
      exact ⟨rfl, rfl⟩
    · left
      rw [if_pos rfl] at h
      exact ⟨rfl, h⟩

/-- Decompose a successful `frStepT` into its three stages. -/
theorem frStepT_ok_elim {fa : List String} {q : List (String × QVal)}
    {lst : Bool} {st : FOptions} {k : String} {v : QVal} {st' : FOptions}
    (h : frStepT fa q lst st k v = .ok st') :
    ∃ s1, sortStage fa st k v = .ok s1 ∧
      ((lst = true ∧ listStageT fa q (attrsStage s1 k v) k v = .ok st') ∨
       (lst = false ∧ st' = attrsStage s1 k v)) := by
  unfold frStepT at h
  cases hs : sortStage fa st k v with
  | error e => rw [hs] at h; simp at h
  | ok s1 =>
    rw [hs] at h
    simp only [exceptBind_ok] at h
    refine ⟨s1, rfl, ?_⟩
    cases lst
    · right
      rw [if_neg (by simp)] at h
      cases h
      exact ⟨rfl, rfl⟩
    · left
      rw [if_pos rfl] at h
      exact ⟨rfl, h⟩

/-- Decompose a successful `piStep` into its three stages. -/
theorem piStep_ok_elim {fa : List String} {q : List (String × QVal)}
    {childC : List (String × QVal) → FOptions}
    {lst : Bool} {st : FOptions} {k : String} {v : QVal} {st' : FOptions}
    (h : piStep fa q childC lst st k v = .ok st') :
    ∃ s1, sortStage fa st k v = .ok s1 ∧
      ((lst = true ∧ listStageI fa q childC (attrsStage s1 k v) k v = .ok st') ∨
       (lst = false ∧ st' = attrsStage s1 k v)) := by
  unfold piStep at h
  cases hs : sortStage fa st k v with
  | error e => rw [hs] at h; simp at h
  | ok s1 =>
    rw [hs] at h
    simp only [exceptBind_ok] at h
    refine ⟨s1, rfl, ?_⟩
    cases lst
    · right
      rw [if_neg (by simp)] at h
      cases h
      exact ⟨rfl, rfl⟩
    · left
      rw [if_pos rfl] at h
      exact ⟨rfl, h⟩

/-- `runKeys` preserves any invariant the step's successes preserve
(an aborted run returns an intermediate state, which also satisfies the
invariant). -/
theorem runKeys_preserves (P : FOptions → Prop)
    {step : FOptions → String → QVal → Except Unit FOptions}
    (hstep : ∀ st k v st', P st → step st k v = .ok st' → P st') :
    ∀ (kvs : List (String × QVal)) (st : FOptions), P st → P (runKeys step kvs st)
  | [], _, hP => hP
  | (k, v) :: rest, st, hP => by
    unfold runKeys
    cases hs : step st k v with
    | ok st2 => exact runKeys_preserves P hstep rest st2 (hstep _ _ _ _ hP hs)
    | error e => exact hP

/-- A fully successful strict run and the catching run agree. -/
theorem runKeys_of_strict {step : FOptions → String → QVal → Except Unit FOptions} :
    ∀ {kvs : List (String × QVal)} {st st' : FOptions},
      runKeysStrict step kvs st = .ok st' → runKeys step kvs st = st'
  | [], _, _, h => by cases h; rfl
  | (k, v) :: rest, st, st', h => by
    unfold runKeysStrict at h
    unfold runKeys
    cases hs : step st k v with
    | ok st2 =>
      rw [hs] at h
      simp only [exceptBind_ok] at h
      exact runKeys_of_strict h
    | error e => rw [hs] at h; simp at h

/-- Unfolding a catching run one successful key at a time. -/
theorem runKeys_cons_ok
    {step : FOptions → String → QVal → Except Unit FOptions}
    {st st2 : FOptions} {k : String} {v : QVal}
    {rest : List (String × QVal)} (h : step st k v = .ok st2) :
    runKeys step ((k, v) :: rest) st = runKeys step rest st2 := by
  conv_lhs => unfold runKeys
  rw [h]

/-- Splitting a catching run after a successful strict prefix. -/
theorem runKeys_append_of_strict
    {step : FOptions → String → QVal → Except Unit FOptions} :
    ∀ {pre : List (String × QVal)} {post : List (String × QVal)}
      {st st' : FOptions},
      runKeysStrict step pre st = .ok st' →
      runKeys step (pre ++ post) st = runKeys step post st'
  | [], _, _, _, h => by cases h; rfl
  | (k, v) :: rest, post, st, st', h => by
    unfold runKeysStrict at h
    cases hs : step st k v with
    | ok st2 =>
      rw [hs] at h
      simp only [exceptBind_ok] at h
      rw [List.cons_append, runKeys_cons_ok hs]
      exact runKeys_append_of_strict h
    | error e => rw [hs] at h; simp at h

/-- A key whose processing throws stops the catching run at the state
accumulated so far. -/
theorem runKeys_error_cons
    {step : FOptions → String → QVal → Except Unit FOptions}
    {k : String} {v : QVal} {post : List (String × QVal)} {st : FOptions}
    (h : step st k v = .error ()) :
    runKeys step ((k, v) :: post) st = st := by
  unfold runKeys
  rw [h]

/-- Two pointwise-equal steps run identically. -/
theorem runKeys_congr
    {step step' : FOptions → String → QVal → Except Unit FOptions}
    (hs : ∀ st k v, step st k v = step' st k v) :
    ∀ (kvs : List (String × QVal)) (st : FOptions),
      runKeys step kvs st = runKeys step' kvs st
  | [], _ => rfl
  | (k, v) :: rest, st => by
    unfold runKeys
    rw [hs st k v]
    cases step' st k v with
    | ok st2 => exact runKeys_congr hs rest st2
    | error e => rfl

/-- A pair pushed by the `parseSorting` loop has an allow-listed field. -/
theorem sortItem_mem {fa : List String} {item : QVal} {p : String × String}
    (h : sortItem fa item = .ok (some p)) : p.1 ∈ fa := by
  cases item with
  | vStr s =>
    simp only [sortItem] at h
    by_cases c1 : (s == "status" || s == "status-") = true
    · rw [if_pos c1] at h
      by_cases c2 : (fa.contains "status" &&
          ((if lastCharIsDash s then "ASC" else "DESC") == "ASC" ||
           (if lastCharIsDash s then "ASC" else "DESC") == "DESC")) = true
      · rw [if_pos c2] at h
        cases h
        have := (Bool.and_eq_true _ _).mp c2
        simpa using this.1
      · rw [if_neg c2] at h
        simp at h
    · rw [if_neg c1] at h
      by_cases c2 : (fa.contains
          (if lastCharIsDash s then (dropLastChar s, "DESC") else (s, "ASC")).1 &&
          ((if lastCharIsDash s then (dropLastChar s, "DESC") else (s, "ASC")).2 == "ASC" ||
           (if lastCharIsDash s then (dropLastChar s, "DESC") else (s, "ASC")).2 == "DESC")) = true
      · rw [if_pos c2] at h
        cases h
        have := (Bool.and_eq_true _ _).mp c2
        simpa using this.1
      · rw [if_neg c2] at h
        simp at h
  | vNum n => simp [sortItem] at h
  | vNull => simp [sortItem] at h
  | vObj fields => simp [sortItem] at h
  | vArr items => simp [sortItem] at h

/-- Every pair collected by the `parseSorting` loop has an allow-listed
field. -/
theorem sortLoop_mem {fa : List String} :
    ∀ {items : List QVal} {ps : List (String × String)},
      sortLoop fa items = .ok ps → ∀ p ∈ ps, p.1 ∈ fa
  | [], _, h => by cases h; intro p hp; cases hp
  | item :: rest, ps, h => by
    unfold sortLoop at h
    cases hi : sortItem fa item with
    | error e => rw [hi] at h; simp at h
    | ok o =>
      rw [hi] at h
      simp only [exceptBind_ok] at h
      cases ht : sortLoop fa rest with
      | error e => rw [ht] at h; simp at h
      | ok t =>
        rw [ht] at h
        simp only [exceptBind_ok] at h
        cases o with
        | none =>
          cases h
          exact sortLoop_mem ht
        | some p0 =>
          cases h
          intro p hp
          rcases List.mem_cons.mp hp with rfl | hp'
          · exact sortItem_mem hi
          · exact sortLoop_mem ht p hp'

/-- A successful `parseSorting` result is either entirely allow-listed
or exactly the `[["id", "DESC"]]` fallback. -/
theorem parseSorting_cases {fa : List String} {v : QVal}
    {l : List (String × String)} (h : parseSorting fa v = .ok l) :
    (∀ p ∈ l, p.1 ∈ fa) ∨ l = [("id", "DESC")] := by
  cases v with
  | vStr s =>
    simp only [parseSorting] at h
    cases hl : sortLoop fa ((jsSplit s '|').map QVal.vStr) with
    | error e => rw [hl] at h; simp [Except.map] at h
    | ok ps =>
      rw [hl] at h
      simp [Except.map] at h
      by_cases he : ps = []
      · rw [if_pos he] at h
        exact Or.inr h.symm
      · rw [if_neg he] at h
        subst h
        exact Or.inl (sortLoop_mem hl)
  | vArr items =>
    simp only [parseSorting] at h
    cases hl : sortLoop fa items with
    | error e => rw [hl] at h; simp [Except.map] at h
    | ok ps =>
      rw [hl] at h
      simp [Except.map] at h
      by_cases he : ps = []
      · rw [if_pos he] at h
        exact Or.inr h.symm
      · rw [if_neg he] at h
        subst h
        exact Or.inl (sortLoop_mem hl)
  | vNum n => cases h; exact Or.inr rfl
  | vNull => cases h; exact Or.inr rfl
  | vObj fields => cases h; exact Or.inr rfl

/-- `setAssoc` preserves a predicate on keys when the new key satisfies
it. -/
theorem setAssoc_forall {P : String → Prop} :
    ∀ {w : List (String × WhereVal)}, (∀ p ∈ w, P p.1) →
      ∀ {b : String} {wv : WhereVal}, P b → ∀ p ∈ setAssoc b wv w, P p.1
  | [], _, b, wv, hb, p, hp => by
    simp only [setAssoc] at hp
    rcases List.mem_singleton.mp hp with rfl
    exact hb
  | (k', v') :: rest, hw, b, wv, hb, p, hp => by
    simp only [setAssoc] at hp
    split at hp
    · rcases List.mem_cons.mp hp with rfl | hp'
      · exact hb
      · exact hw p (List.mem_cons_of_mem _ hp')
    · rcases List.mem_cons.mp hp with rfl | hp'
      · exact hw (k', v') (List.mem_cons_self _ _)
      · exact setAssoc_forall (fun p hp => hw p (List.mem_cons_of_mem _ hp)) hb p hp'

/-- The allow-list invariant of claim C1: every predicate field is
allow-listed, and the sort order, when set, is either entirely
allow-listed or exactly the `(id, DESC)` fallback. -/
def c1Inv (fa : List String) (st : FOptions) : Prop :=
  (∀ p ∈ st.whereClauses, p.1 ∈ fa) ∧
  (∀ l, st.order = some l → (∀ p ∈ l, p.1 ∈ fa) ∨ l = [("id", "DESC")])

theorem frStep_c1 {fa : List String} {q : List (String × QVal)} {lst : Bool}
    {st : FOptions} {k : String} {v : QVal} {st' : FOptions}
    (hInv : c1Inv fa st) (h : frStep fa q lst st k v = .ok st') :
    c1Inv fa st' := by
  obtain ⟨s1, hs, hrest⟩ := frStep_ok_elim h
  obtain ⟨w1, _, _, _, _, ord1⟩ := sortStage_ok hs
  have hInv1 : c1Inv fa s1 := by
    constructor
    · rw [w1]; exact hInv.1
    · intro l hl
      rcases ord1 with ho | ⟨l0, hp, ho⟩
      · rw [ho] at hl; exact hInv.2 l hl
      · rw [ho] at hl
        injection hl with hl
        subst hl
        exact parseSorting_cases hp
  have hInv2 : c1Inv fa (attrsStage s1 k v) := by
    refine ⟨?_, ?_⟩
    · intro p hp
      exact hInv1.1 p (by simpa using hp)
    · intro l hl
      exact hInv1.2 l (by simpa using hl)
  rcases hrest with ⟨_, hL⟩ | ⟨_, rfl⟩
  · obtain ⟨lo, _, lw⟩ := listStage000_ok hL
    constructor
    · rcases lw with hw | ⟨b, wv, hb, hw⟩
      · rw [hw]; exact hInv2.1
      · rw [hw]
        exact setAssoc_forall hInv2.1 (by simpa using hb)
    · intro l hl
      rw [lo] at hl
      exact hInv2.2 l hl
  · exact hInv2

/-- C1 (corrected): in the legacy `parseFilters` (`part_000`), every
field keying a compiled `where` clause is a member of the caller's
`filterable_attributes`, and every field of the compiled sort order is a
member as well unless the order is exactly the `(id, DESC)` fallback —
which, contrary to the claim as stated, is emitted regardless of whether
`id` is allow-listed. Keys whose base field is not allow-listed
contribute no clause. -/
theorem c1_allow_list_enforcement (fa : List String)
    (q : List (String × QVal)) (lst : Bool) :
    (∀ p ∈ (parseFilters fa q lst).whereClauses, p.1 ∈ fa) ∧
    (∀ l, (parseFilters fa q lst).order = some l →
      (∀ p ∈ l, p.1 ∈ fa) ∨ l = [("id", "DESC")]) :=
  runKeys_preserves (c1Inv fa)
    (fun _ _ _ _ hP hs => frStep_c1 hP hs) q FOptions.init
    ⟨by simp, by simp⟩

/-- C1 counterexample: with an empty allow-list, a present `sort` key
still compiles the fallback order `[(id, DESC)]`, whose field `id` is
not in the allow-list — refuting strict allow-list enforcement for the
sort order. -/
theorem c1_counterexample :
    (parseFilters [] [("sort", QVal.vStr "x")] true).order
      = some [("id", "DESC")] ∧ "id" ∉ ([] : List String) :=
  ⟨rfl, by simp⟩

/-- Unfolding a strict run one successful key at a time. -/
theorem runKeysStrict_cons_ok
    {step : FOptions → String → QVal → Except Unit FOptions}
    {st st2 : FOptions} {k : String} {v : QVal}
    {rest : List (String × QVal)} (h : step st k v = .ok st2) :
    runKeysStrict step ((k, v) :: rest) st = runKeysStrict step rest st2 := by
  conv_lhs => unfold runKeysStrict
  rw [h]
  simp only [exceptBind_ok]

/-- C2 (corrected): the `try`/`catch` wraps the whole key loop, so when
compiling one key throws, the exception is caught but the remaining keys
are NOT compiled: the result is exactly the state accumulated over the
keys before the failing one. -/
theorem c2_error_containment (fa : List String) (lst : Bool)
    (pre post : List (String × QVal)) (k : String) (v : QVal)
    (st' : FOptions)
    (h1 : runKeysStrict (frStep fa (pre ++ (k, v) :: post) lst) pre
            FOptions.init = .ok st')
    (h2 : frStep fa (pre ++ (k, v) :: post) lst st' k v = .error ()) :
    parseFilters fa (pre ++ (k, v) :: post) lst = st' := by
  unfold parseFilters
  rw [runKeys_append_of_strict h1]
  exact runKeys_error_cons h2

/-- C2 witness: `a__in = 5` (a number, so `.split` throws) preceded by a
valid `status__is` clause and followed by a valid `b__is` clause: the
result keeps the preceding clause and drops the following one. -/
theorem c2_error_containment_witness :
    runKeysStrict
        (frStep ["status", "a", "b"]
          ([("status__is", QVal.vNum 1)] ++
            ("a__in", QVal.vNum 5) :: [("b__is", QVal.vNum 2)]) true)
        [("status__is", QVal.vNum 1)] FOptions.init
      = .ok (FOptions.mk [("status", WhereVal.eq (QVal.vNum 1))]
              none none none none none) ∧
    frStep ["status", "a", "b"]
        ([("status__is", QVal.vNum 1)] ++
          ("a__in", QVal.vNum 5) :: [("b__is", QVal.vNum 2)]) true
        (FOptions.mk [("status", WhereVal.eq (QVal.vNum 1))]
          none none none none none) "a__in" (QVal.vNum 5)
      = .error () ∧
    parseFilters ["status", "a", "b"]
        ([("status__is", QVal.vNum 1)] ++
          ("a__in", QVal.vNum 5) :: [("b__is", QVal.vNum 2)]) true
      = FOptions.mk [("status", WhereVal.eq (QVal.vNum 1))]
          none none none none none :=
  ⟨rfl, rfl,
    c2_error_containment ["status", "a", "b"] true
      [("status__is", QVal.vNum 1)] [("b__is", QVal.vNum 2)]
      "a__in" (QVal.vNum 5)
      (FOptions.mk [("status", WhereVal.eq (QVal.vNum 1))]
        none none none none none) rfl rfl⟩

/-- C2 counterexample: with the malformed `a__in = 5` first, the valid
`status__is` clause of the same query is NOT compiled (the claim says
compilation continues with remaining keys), although alone it would be. -/
theorem c2_counterexample :
    (parseFilters ["a", "status"]
        [("a__in", QVal.vNum 5), ("status__is", QVal.vNum 1)] true).whereClauses
      = [] ∧
    (parseFilters ["a", "status"]
        [("status__is", QVal.vNum 1)] true).whereClauses
      = [("status", WhereVal.eq (QVal.vNum 1))] :=
  ⟨rfl, rfl⟩

/-- The sort stage acts identically on two states (it depends on the
state only through `setOrder`). -/
theorem sortStage_pair {fa : List String} {st0 st1 : FOptions}
    {k : String} {v : QVal} {s1 : FOptions}
    (h : sortStage fa st1 k v = .ok s1) (ho : st0.order = st1.order) :
    ∃ s0, sortStage fa st0 k v = .ok s0 ∧ s0.order = s1.order ∧
      s0.attrs = st0.attrs ∧ s1.attrs = st1.attrs ∧
      s0.whereClauses = st0.whereClauses ∧
      s0.offset = st0.offset ∧ s0.limit = st0.limit := by
  unfold sortStage at h ⊢
  by_cases c : (k == "sort") = true
  · rw [if_pos c] at h ⊢
    cases hp : parseSorting fa v with
    | error e => rw [hp] at h; simp [Except.map] at h
    | ok l =>
      rw [hp] at h
      simp only [Except.map] at h ⊢
      refine ⟨st0.setOrder l, rfl, ?_, by simp, ?_, by simp, by simp, by simp⟩
      · injection h with h
        rw [← h]
        simp
      · injection h with h
        rw [← h]
        simp
  · rw [if_neg c] at h ⊢
    cases h
    exact ⟨st0, rfl, ho, rfl, rfl, rfl, rfl, rfl⟩

/-- Single-key pairing for C3: whenever the list-mode step succeeds, the
single-mode step on a state agreeing in `order`/`attrs` succeeds and the
results agree in `order`/`attrs` again. -/
theorem frStep_pair {fa : List String} {q : List (String × QVal)}
    {st0 st1 : FOptions} {k : String} {v : QVal} {st1' : FOptions}
    (ho : st0.order = st1.order) (ha : st0.attrs = st1.attrs)
    (h : frStep fa q true st1 k v = .ok st1') :
    ∃ st0', frStep fa q false st0 k v = .ok st0' ∧
      st0'.order = st1'.order ∧ st0'.attrs = st1'.attrs := by
  obtain ⟨s1, hs, hrest⟩ := frStep_ok_elim h
  rcases hrest with ⟨_, hL⟩ | ⟨hfalse, _⟩
  swap
  · exact absurd hfalse (by simp)
  obtain ⟨lo, la, _⟩ := listStage000_ok hL
  obtain ⟨s0, hs0, hoo, ha0, ha1, _, _, _⟩ := sortStage_pair hs ho
  refine ⟨attrsStage s0 k v, ?_, ?_, ?_⟩
  · unfold frStep
    rw [hs0]
    simp only [exceptBind_ok]
    rw [if_neg (by simp)]
  · rw [lo]
    simp only [attrsStage_order]
    exact hoo
  · rw [la]
    unfold attrsStage
    split
    · simp
    · rw [ha0, ha, ← ha1]

/-- A strict run whose first key throws is an error. -/
theorem runKeysStrict_cons_error
    {step : FOptions → String → QVal → Except Unit FOptions}
    {st : FOptions} {k : String} {v : QVal} {e : Unit}
    {rest : List (String × QVal)} (h : step st k v = .error e) :
    runKeysStrict step ((k, v) :: rest) st = .error e := by
  conv_lhs => unfold runKeysStrict
  rw [h]
  simp only [exceptBind_error]

/-- Run-level pairing for C3. -/
theorem runsPair {fa : List String} {q : List (String × QVal)} :
    ∀ (kvs : List (String × QVal)) (st0 st1 : FOptions),
      st0.order = st1.order → st0.attrs = st1.attrs →
      ∀ {st1' : FOptions},
        runKeysStrict (frStep fa q true) kvs st1 = .ok st1' →
        ∃ st0', runKeysStrict (frStep fa q false) kvs st0 = .ok st0' ∧
          st0'.order = st1'.order ∧ st0'.attrs = st1'.attrs
  | [], st0, _, ho, ha, _, h => by
    cases h
    exact ⟨st0, rfl, ho, ha⟩
  | (k, v) :: rest, st0, st1, ho, ha, st1', h => by
    cases hs : frStep fa q true st1 k v with
    | error e =>
      rw [runKeysStrict_cons_error hs] at h
      simp at h
    | ok st1m =>
      rw [runKeysStrict_cons_ok hs] at h
      obtain ⟨st0m, hs0, ho', ha'⟩ := frStep_pair ho ha hs
      obtain ⟨st0', h0, ho'', ha''⟩ := runsPair rest st0m st1m ho' ha' h
      exact ⟨st0', by rw [runKeysStrict_cons_ok hs0]; exact h0, ho'', ha''⟩

/-- Single-mode steps leave `where`, `offset` and `limit` untouched. -/
theorem frStep_false_fields {fa : List String} {q : List (String × QVal)}
    {st : FOptions} {k : String} {v : QVal} {st' : FOptions}
    (h : frStep fa q false st k v = .ok st') :
    st'.whereClauses = st.whereClauses ∧ st'.offset = st.offset ∧
    st'.limit = st.limit := by
  obtain ⟨s1, hs, hrest⟩ := frStep_ok_elim h
  rcases hrest with ⟨htrue, _⟩ | ⟨_, rfl⟩
  · exact absurd htrue (by simp)
  · obtain ⟨w1, _, o1, l1, _, _⟩ := sortStage_ok hs
    exact ⟨by simpa using w1, by simpa using o1, by simpa using l1⟩

/-- C3 (corrected): the `list` flag gates not only pagination but the
entire filter-clause block. In single mode the compiled predicate is
always empty and `offset`/`limit` are never set; and whenever the
list-mode compilation of the same query processes every key without
throwing, the sort order and the projection agree between the two modes. -/
theorem c3_mode_effects (fa : List String) (q : List (String × QVal)) :
    (parseFilters fa q false).whereClauses = [] ∧
    (parseFilters fa q false).offset = none ∧
    (parseFilters fa q false).limit = none ∧
    ∀ st', runKeysStrict (frStep fa q true) q FOptions.init = .ok st' →
      (parseFilters fa q false).order = (parseFilters fa q true).order ∧
      (parseFilters fa q false).attrs = (parseFilters fa q true).attrs := by
  have hP : (parseFilters fa q false).whereClauses = [] ∧
      (parseFilters fa q false).offset = none ∧
      (parseFilters fa q false).limit = none :=
    runKeys_preserves
      (fun st => st.whereClauses = [] ∧ st.offset = none ∧ st.limit = none)
      (fun st k v st' hP hs => by
        obtain ⟨hw, ho, hl⟩ := frStep_false_fields hs
        exact ⟨hw.trans hP.1, ho.trans hP.2.1, hl.trans hP.2.2⟩)
      q FOptions.init ⟨rfl, rfl, rfl⟩
  refine ⟨hP.1, hP.2.1, hP.2.2, ?_⟩
  intro st' h
  obtain ⟨st0', h0, ho, ha⟩ := runsPair q FOptions.init FOptions.init rfl rfl h
  unfold parseFilters
  rw [runKeys_of_strict h0, runKeys_of_strict h]
  exact ⟨ho, ha⟩

/-- C3 witness: a query with a filter and a sort key, compiled cleanly in
both modes: order and projection agree across modes, and the single-mode
spec has empty predicate and no pagination. -/
theorem c3_mode_effects_witness :
    (parseFilters ["status"]
        [("status__is", QVal.vNum 1), ("sort", QVal.vStr "status")]
        false).whereClauses = [] ∧
    (parseFilters ["status"]
        [("status__is", QVal.vNum 1), ("sort", QVal.vStr "status")]
        false).offset = none ∧
    (parseFilters ["status"]
        [("status__is", QVal.vNum 1), ("sort", QVal.vStr "status")]
        false).limit = none ∧
    ((parseFilters ["status"]
        [("status__is", QVal.vNum 1), ("sort", QVal.vStr "status")]
        false).order =
      (parseFilters ["status"]
        [("status__is", QVal.vNum 1), ("sort", QVal.vStr "status")]
        true).order ∧
     (parseFilters ["status"]
        [("status__is", QVal.vNum 1), ("sort", QVal.vStr "status")]
        false).attrs =
      (parseFilters ["status"]
        [("status__is", QVal.vNum 1), ("sort", QVal.vStr "status")]
        true).attrs) := by
  have h := c3_mode_effects ["status"]
    [("status__is", QVal.vNum 1), ("sort", QVal.vStr "status")]
  exact ⟨h.1, h.2.1, h.2.2.1,
    h.2.2.2 (FOptions.mk [("status", WhereVal.eq (QVal.vNum 1))]
      (some [("status", "DESC")]) none none none none) rfl⟩

/-- C3 counterexample: the same `status__is = 1` query compiles to an
empty predicate in single mode but to the status-equality clause in list
mode — the two modes do not agree on the predicate. -/
theorem c3_counterexample :
    (parseFilters ["status"] [("status__is", QVal.vNum 1)] false).whereClauses
      = [] ∧
    (parseFilters ["status"] [("status__is", QVal.vNum 1)] true).whereClauses
      = [("status", WhereVal.eq (QVal.vNum 1))] :=
  ⟨rfl, rfl⟩

/-- C4 (code bug): the relation-aware compiler does recurse in single
mode and attach the child under the relation name, but the recursive
call passes `list = false` while every filter branch sits inside the
`if (list)` block, so the nested `status__is` filter is dropped: the
attached child spec is the empty `FOptions.init`, with an empty
predicate, although compiling the same nested mapping at the top level
(in list mode) yields the status equality clause. The top-level
predicate is unaffected by the nested key. -/
theorem c4_relation_recursion_eval :
    (parseFiltersInclude ["status"]
        [("include_author", QVal.vObj [("status__is", QVal.vNum 1)])]
        true).includes = some [("author", FOptions.init)] ∧
    FOptions.init.whereClauses = [] ∧
    (parseFiltersInclude ["status"]
        [("include_author", QVal.vObj [("status__is", QVal.vNum 1)])]
        true).whereClauses = [] ∧
    (parseFiltersInclude ["status"]
        [("status__is", QVal.vNum 1)] true).whereClauses
      = [("status", WhereVal.eq (QVal.vNum 1))] :=
  ⟨rfl, rfl, rfl, rfl⟩

/-- Side condition for an `__is` key: the key carries the `__is`
operator, none of the suffix substrings the chain checks first, and is
none of the reserved keys (the latter already follow from the former for
these literal reserved names, but are listed so the hypothesis is one
decidable conjunction). -/
def isIsKey (k : String) : Prop :=
  jsIncludes k "__is" = true ∧ jsIncludes k "__in" = false ∧
  jsIncludes k "__con" = false ∧ jsIncludes k "__sw" = false ∧
  jsIncludes k "__ew" = false ∧
  (k == "sort") = false ∧ (k == "attributes") = false ∧
  (k == "page") = false ∧ (k == "size") = false

/-- Well-formed `YYYY-MM-DD` calendar-day string. -/
def isIsoDay (s : String) : Bool :=
  match s.toList with
  | [y1, y2, y3, y4, '-', m1, m2, '-', d1, d2] =>
    [y1, y2, y3, y4, m1, m2, d1, d2].all Char.isDigit
  | _ => false

/-- Modelled from the moment library (not part of this repository): on
an ISO calendar-day string, `moment.utc(d).startOf('day')` is the
instant `d`T00:00:00.000Z and `moment.utc(d).endOf('day')` is
`d`T23:59:59.999Z. -/
def isoDayBound : MomentBound → Option String
  | .utcStartOfDay (.vStr d) =>
    if isIsoDay d then some (d ++ "T00:00:00.000Z") else none
  | .utcEndOfDay (.vStr d) =>
    if isIsoDay d then some (d ++ "T23:59:59.999Z") else none
  | _ => none

/-- C5 (corrected to truthy values): in the legacy `parseFilters`, a
truthy `<field>__is` value on an allow-listed field compiles to the
inclusive UTC day range `[moment.utc(v).startOf('day'),
moment.utc(v).endOf('day')]` when the field is in the hard-coded
date-field set, and to a plain equality with the raw value otherwise. -/
theorem c5_date_widening (fa : List String) (k : String) (v : QVal)
    (hk : isIsKey k) (hv : truthy v = true)
    (hfa : fa.contains (jsReplaceFirst k "__is") = true) :
    (parseFilters fa [(k, v)] true).whereClauses =
      [(jsReplaceFirst k "__is",
        if dateFields000.contains (jsReplaceFirst k "__is") then
          WhereVal.opBetweenM (.utcStartOfDay v) (.utcEndOfDay v)
        else WhereVal.eq v)] := by
  obtain ⟨h_is, h_in, h_con, h_sw, h_ew, h_sort, h_attr, h_page, h_size⟩ := hk
  have hstep : frStep fa [(k, v)] true FOptions.init k v
      = .ok (FOptions.init.setWhere (jsReplaceFirst k "__is")
          (if dateFields000.contains (jsReplaceFirst k "__is") then
            WhereVal.opBetweenM (.utcStartOfDay v) (.utcEndOfDay v)
          else WhereVal.eq v)) := by
    unfold frStep sortStage attrsStage listStage000 addIfAllowedE
    simp only [h_is, h_in, h_con, h_sw, h_ew, h_sort, h_attr, h_page,
      h_size, hv, hfa]
    simp [Except.map]
  unfold parseFilters
  rw [runKeys_cons_ok hstep]
  simp [runKeys, setAssoc]

/-- C5 witness: `created_at__is = "2024-01-15"` widens to the UTC day
range whose bounds are the claimed instants, while `name__is = "x"` on a
non-date field compiles to plain equality. -/
theorem c5_date_widening_witness :
    (parseFilters ["created_at"]
        [("created_at__is", QVal.vStr "2024-01-15")] true).whereClauses
      = [("created_at", WhereVal.opBetweenM
          (MomentBound.utcStartOfDay (QVal.vStr "2024-01-15"))
          (MomentBound.utcEndOfDay (QVal.vStr "2024-01-15")))] ∧
    isoDayBound (MomentBound.utcStartOfDay (QVal.vStr "2024-01-15"))
      = some "2024-01-15T00:00:00.000Z" ∧
    isoDayBound (MomentBound.utcEndOfDay (QVal.vStr "2024-01-15"))
      = some "2024-01-15T23:59:59.999Z" ∧
    (parseFilters ["name"] [("name__is", QVal.vStr "x")] true).whereClauses
      = [("name", WhereVal.eq (QVal.vStr "x"))] :=
  ⟨c5_date_widening ["created_at"] "created_at__is" (QVal.vStr "2024-01-15")
      ⟨rfl, rfl, rfl, rfl, rfl, rfl, rfl, rfl, rfl⟩ rfl rfl,
   rfl, rfl,
   c5_date_widening ["name"] "name__is" (QVal.vStr "x")
      ⟨rfl, rfl, rfl, rfl, rfl, rfl, rfl, rfl, rfl⟩ rfl rfl⟩

/-- C5 counterexample: the empty string is non-null, yet
`created_at__is = ""` compiles to no clause at all (falsy values are
skipped), not to a day range as the claim states for every non-null
value. -/
theorem c5_counterexample :
    isNullish (QVal.vStr "") = false ∧
    (parseFilters ["created_at"] [("created_at__is", QVal.vStr "")]
        true).whereClauses = [] :=
  ⟨rfl, rfl⟩

/-- Side condition for a `__gte` key (operator present, earlier-chain
suffixes absent, not a reserved key). -/
def isGteKey (k : String) : Prop :=
  jsIncludes k "__gte" = true ∧ jsIncludes k "__in" = false ∧
  jsIncludes k "__con" = false ∧ jsIncludes k "__sw" = false ∧
  jsIncludes k "__ew" = false ∧ jsIncludes k "__is" = false ∧
  jsIncludes k "__ne" = false ∧ jsIncludes k "__lte" = false ∧
  (k == "sort") = false ∧ (k == "attributes") = false ∧
  (k == "page") = false ∧ (k == "size") = false

/-- Side condition for a `__lte` key. -/
def isLteKey (k : String) : Prop :=
  jsIncludes k "__lte" = true ∧ jsIncludes k "__in" = false ∧
  jsIncludes k "__con" = false ∧ jsIncludes k "__sw" = false ∧
  jsIncludes k "__ew" = false ∧ jsIncludes k "__is" = false ∧
  jsIncludes k "__ne" = false ∧
  (k == "sort") = false ∧ (k == "attributes") = false ∧
  (k == "page") = false ∧ (k == "size") = false

/-- C6 (corrected): only the template variant (`part_009`) compiles
`__gte`/`__lte` to real comparisons for every allowed field; the legacy
variant (`part_000`) does so only for its special fields
(`service_date`, `coupon_applicable_to`/`coupon_applicable_from`) and
compiles every other allowed field to a plain EQUALITY with the raw
value. -/
theorem c6_comparison_operators :
    (∀ (fa : List String) (k : String) (v : QVal), isGteKey k →
      truthy v = true → fa.contains (jsReplaceFirst k "__gte") = true →
      (parseFiltersT fa [(k, v)] true).whereClauses
        = [(jsReplaceFirst k "__gte", WhereVal.opGte v)]) ∧
    (∀ (fa : List String) (k : String) (v : QVal), isLteKey k →
      truthy v = true → fa.contains (jsReplaceFirst k "__lte") = true →
      (parseFiltersT fa [(k, v)] true).whereClauses
        = [(jsReplaceFirst k "__lte", WhereVal.opLte v)]) ∧
    (∀ (fa : List String) (k : String) (v : QVal), isGteKey k →
      truthy v = true → fa.contains (jsReplaceFirst k "__gte") = true →
      (parseFilters fa [(k, v)] true).whereClauses
        = [(jsReplaceFirst k "__gte",
            if gteCompareFields000.contains (jsReplaceFirst k "__gte")
            then WhereVal.opGte v else WhereVal.eq v)]) ∧
    (∀ (fa : List String) (k : String) (v : QVal), isLteKey k →
      truthy v = true → fa.contains (jsReplaceFirst k "__lte") = true →
      (parseFilters fa [(k, v)] true).whereClauses
        = [(jsReplaceFirst k "__lte",
            if lteCompareFields000.contains (jsReplaceFirst k "__lte")
            then WhereVal.opLte v else WhereVal.eq v)]) := by
  refine ⟨?_, ?_, ?_, ?_⟩
  · intro fa k v hk hv hfa
    obtain ⟨h1, h2, h3, h4, h5, h6, h7, h8, h9, h10, h11, h12⟩ := hk
    have hstep : frStepT fa [(k, v)] true FOptions.init k v
        = .ok (FOptions.init.setWhere (jsReplaceFirst k "__gte")
            (WhereVal.opGte v)) := by
      unfold frStepT sortStage attrsStage listStageT addIfAllowedE
      simp only [h1, h2, h3, h4, h5, h6, h7, h8, h9, h10, h11, h12, hv, hfa]
      simp [Except.map]
    unfold parseFiltersT
    rw [runKeys_cons_ok hstep]
    simp [runKeys, setAssoc]
  · intro fa k v hk hv hfa
    obtain ⟨h1, h2, h3, h4, h5, h6, h7, h8, h9, h10, h11⟩ := hk
    have hstep : frStepT fa [(k, v)] true FOptions.init k v
        = .ok (FOptions.init.setWhere (jsReplaceFirst k "__lte")
            (WhereVal.opLte v)) := by
      unfold frStepT sortStage attrsStage listStageT addIfAllowedE
      simp only [h1, h2, h3, h4, h5, h6, h7, h8, h9, h10, h11, hv, hfa]
      simp [Except.map]
    unfold parseFiltersT
    rw [runKeys_cons_ok hstep]
    simp [runKeys, setAssoc]
  · intro fa k v hk hv hfa
    obtain ⟨h1, h2, h3, h4, h5, h6, h7, h8, h9, h10, h11, h12⟩ := hk
    have hstep : frStep fa [(k, v)] true FOptions.init k v
        = .ok (FOptions.init.setWhere (jsReplaceFirst k "__gte")
            (if gteCompareFields000.contains (jsReplaceFirst k "__gte")
             then WhereVal.opGte v else WhereVal.eq v)) := by
      unfold frStep sortStage attrsStage listStage000 addIfAllowedE
      simp only [h1, h2, h3, h4, h5, h6, h7, h8, h9, h10, h11, h12, hv, hfa]
      simp [Except.map]
    unfold parseFilters
    rw [runKeys_cons_ok hstep]
    simp [runKeys, setAssoc]
  · intro fa k v hk hv hfa
    obtain ⟨h1, h2, h3, h4, h5, h6, h7, h8, h9, h10, h11⟩ := hk
    have hstep : frStep fa [(k, v)] true FOptions.init k v
        = .ok (FOptions.init.setWhere (jsReplaceFirst k "__lte")
            (if lteCompareFields000.contains (jsReplaceFirst k "__lte")
             then WhereVal.opLte v else WhereVal.eq v)) := by
      unfold frStep sortStage attrsStage listStage000 addIfAllowedE
      simp only [h1, h2, h3, h4, h5, h6, h7, h8, h9, h10, h11, hv, hfa]
      simp [Except.map]
    unfold parseFilters
    rw [runKeys_cons_ok hstep]
    simp [runKeys, setAssoc]

/-- C6 witness: `age__gte = "18"` compiles to a real `gte` in the
template variant but to a plain equality in the legacy variant, while
the legacy special field `service_date__gte` does get a real `gte`. -/
theorem c6_comparison_operators_witness :
    (parseFiltersT ["age"] [("age__gte", QVal.vStr "18")] true).whereClauses
      = [("age", WhereVal.opGte (QVal.vStr "18"))] ∧
    (parseFiltersT ["age"] [("age__lte", QVal.vStr "30")] true).whereClauses
      = [("age", WhereVal.opLte (QVal.vStr "30"))] ∧
    (parseFilters ["age"] [("age__gte", QVal.vStr "18")] true).whereClauses
      = [("age", WhereVal.eq (QVal.vStr "18"))] ∧
    (parseFilters ["service_date"] [("service_date__gte", QVal.vStr "2024-01-01")]
        true).whereClauses
      = [("service_date", WhereVal.opGte (QVal.vStr "2024-01-01"))] :=
  ⟨c6_comparison_operators.1 ["age"] "age__gte" (QVal.vStr "18")
      ⟨rfl, rfl, rfl, rfl, rfl, rfl, rfl, rfl, rfl, rfl, rfl, rfl⟩ rfl rfl,
   c6_comparison_operators.2.1 ["age"] "age__lte" (QVal.vStr "30")
      ⟨rfl, rfl, rfl, rfl, rfl, rfl, rfl, rfl, rfl, rfl, rfl⟩ rfl rfl,
   c6_comparison_operators.2.2.1 ["age"] "age__gte" (QVal.vStr "18")
      ⟨rfl, rfl, rfl, rfl, rfl, rfl, rfl, rfl, rfl, rfl, rfl, rfl⟩ rfl rfl,
   c6_comparison_operators.2.2.1 ["service_date"] "service_date__gte"
      (QVal.vStr "2024-01-01")
      ⟨rfl, rfl, rfl, rfl, rfl, rfl, rfl, rfl, rfl, rfl, rfl, rfl⟩ rfl rfl⟩

/-- C6 counterexample: in the legacy variant, `status__gte = "5"` for an
allowed field compiles to an equality clause, not a greater-or-equal
comparison. -/
theorem c6_counterexample :
    (parseFilters ["status"] [("status__gte", QVal.vStr "5")] true).whereClauses
      = [("status", WhereVal.eq (QVal.vStr "5"))] ∧
    WhereVal.eq (QVal.vStr "5") ≠ WhereVal.opGte (QVal.vStr "5") :=
  ⟨rfl, fun h => WhereVal.noConfusion h⟩

/-- C7 (corrected): with both `page` and `size`, `offset = page * size`
and `limit = size`; with only `size`, only `limit` is set; but with only
`page`, the spec does NOT have "neither offset nor limit": `offset` is
set to `NaN` (`+query.page * +undefined`). -/
theorem c7_pagination :
    (∀ (fa : List String) (p s : Int),
      (parseFilters fa [("page", QVal.vNum p), ("size", QVal.vNum s)]
          true).offset = some (JSNum.int (p * s)) ∧
      (parseFilters fa [("page", QVal.vNum p), ("size", QVal.vNum s)]
          true).limit = some (JSNum.int s)) ∧
    (∀ (fa : List String) (s : Int),
      (parseFilters fa [("size", QVal.vNum s)] true).offset = none ∧
      (parseFilters fa [("size", QVal.vNum s)] true).limit
        = some (JSNum.int s)) ∧
    (∀ (fa : List String) (p : Int),
      (parseFilters fa [("page", QVal.vNum p)] true).offset
        = some JSNum.nan ∧
      (parseFilters fa [("page", QVal.vNum p)] true).limit = none) ∧
    ((parseFilters [] [("page", QVal.vStr "2"), ("size", QVal.vStr "50")]
        true).offset = some (JSNum.int 100) ∧
     (parseFilters [] [("page", QVal.vStr "2"), ("size", QVal.vStr "50")]
        true).limit = some (JSNum.int 50)) := by
  refine ⟨?_, ?_, ?_, ?_, ?_⟩
  · intro fa p s
    constructor
    all_goals
      simp [parseFilters, runKeys, frStep, sortStage, attrsStage,
        listStage000, jsLookup, toNumber, jsMul]
  · intro fa s
    constructor
    all_goals
      simp [parseFilters, runKeys, frStep, sortStage, attrsStage,
        listStage000, jsLookup, toNumber, jsMul]
  · intro fa p
    constructor
    all_goals
      simp [parseFilters, runKeys, frStep, sortStage, attrsStage,
        listStage000, jsLookup, toNumber, jsMul]
  · exact rfl
  · exact rfl

/-- C7 counterexample: `page = "2"` with no `size` yields a spec whose
`offset` IS set (to `NaN`), contradicting "neither offset nor limit". -/
theorem c7_counterexample :
    (parseFilters [] [("page", QVal.vStr "2")] true).offset
      = some JSNum.nan ∧
    (parseFilters [] [("page", QVal.vStr "2")] true).offset ≠ none :=
  ⟨rfl, by decide⟩

/-- Modelled from the spec (the words of claim C8), for comparison with
`parseSorting`: a bare token sorts ascending, a trailing `-` descending,
except the status token, which is inverted; a token whose field is not
allow-listed yields no pair. -/
def specSortToken (fa : List String) (t : String) :
    Option (String × String) :=
  if t == "status" || t == "status-" then
    if fa.contains "status" then
      some ("status", if lastCharIsDash t then "ASC" else "DESC")
    else none
  else if lastCharIsDash t then
    if fa.contains (dropLastChar t) then some (dropLastChar t, "DESC")
    else none
  else if fa.contains t then some (t, "ASC")
  else none

/-- Modelled from the spec (claim C8): compile the surviving pairs in
order; if none survives the order is exactly `[(id, DESC)]`. -/
def specSortOrder (fa : List String) (toks : List String) :
    List (String × String) :=
  let pairs := toks.filterMap (specSortToken fa)
  if pairs.isEmpty then [("id", "DESC")] else pairs

/-- A string token compiles exactly as the spec-side token function
says. -/
theorem sortItem_spec (fa : List String) (t : String) :
    sortItem fa (QVal.vStr t) = .ok (specSortToken fa t) := by
  simp only [sortItem]
  unfold specSortToken
  by_cases c1 : (t == "status" || t == "status-") = true
  · rw [if_pos c1, if_pos c1]
    by_cases c2 : fa.contains "status" = true
    · have c2m : "status" ∈ fa := by simpa using c2
      rw [if_pos c2]
      by_cases c3 : lastCharIsDash t = true
      · simp [c2m, c3]
      · have c3f : lastCharIsDash t = false := by simpa using c3
        simp [c2m, c3f]
    · have c2m : "status" ∉ fa := by simpa using c2
      rw [if_neg c2]
      simp [c2m]
  · rw [if_neg c1, if_neg c1]
    by_cases c3 : lastCharIsDash t = true
    · rw [if_pos c3]
      simp only [c3, if_true]
      by_cases c2 : fa.contains (dropLastChar t) = true
      · simp [show dropLastChar t ∈ fa by simpa using c2]
      · simp [show dropLastChar t ∉ fa by simpa using c2]
    · have c3f : lastCharIsDash t = false := by simpa using c3
      rw [if_neg c3]
      simp only [c3f, Bool.false_eq_true, if_false]
      by_cases c2 : fa.contains t = true
      · simp [show t ∈ fa by simpa using c2]
      · simp [show t ∉ fa by simpa using c2]

/-- The `parseSorting` loop over string tokens collects exactly the
spec-side pairs. -/
theorem sortLoop_spec (fa : List String) :
    ∀ toks : List String,
      sortLoop fa (toks.map QVal.vStr) = .ok (toks.filterMap (specSortToken fa))
  | [] => rfl
  | t :: rest => by
    unfold sortLoop
    rw [List.map_cons]
    show (do
      let h ← sortItem fa (QVal.vStr t)
      let tl ← sortLoop fa (rest.map QVal.vStr)
      Except.ok (match h with
                 | some p => p :: tl
                 | none => tl)) = _
    rw [sortItem_spec fa t, sortLoop_spec fa rest]
    simp only [exceptBind_ok]
    cases hsp : specSortToken fa t with
    | some p => simp [List.filterMap_cons, hsp]
    | none => simp [List.filterMap_cons, hsp]

/-- The `if (list)` block is inert for the `sort` key (no operator
suffix matches the literal key `sort`). -/
theorem listStage000_sort (fa : List String) (q : List (String × QVal))
    (st : FOptions) (s : String) :
    listStage000 fa q st "sort" (QVal.vStr s) = .ok st := by
  unfold listStage000
  rw [if_neg (by decide), if_neg (by decide)]
  by_cases ht : truthy (QVal.vStr s) = true
  · rw [if_pos ht]
    rw [if_neg (by decide), if_neg (by decide), if_neg (by decide),
      if_neg (by decide), if_neg (by decide), if_neg (by decide),
      if_neg (by decide), if_neg (by decide), if_neg (by decide),
      if_neg (by decide)]
  · rw [if_neg ht, if_neg (by simp [isNullish])]

/-- C8 (corrected): `parseSorting` agrees with the spec-side grammar on
every string (split on `|`) and every list of string tokens, falls back
to `[(id, DESC)]` on any non-string non-array value, and a present
`sort` key installs exactly that order — but an ABSENT `sort` key sets
no order at all (the claim's fallback-on-absent is wrong, see the
counterexample). The claimed example compiles as stated. -/
theorem c8_sort_grammar :
    (∀ (fa : List String) (s : String),
      parseSorting fa (QVal.vStr s) = .ok (specSortOrder fa (jsSplit s '|'))) ∧
    (∀ (fa : List String) (toks : List String),
      parseSorting fa (QVal.vArr (toks.map QVal.vStr))
        = .ok (specSortOrder fa toks)) ∧
    (∀ (fa : List String) (n : Int),
      parseSorting fa (QVal.vNum n) = .ok [("id", "DESC")]) ∧
    (∀ fa : List String, parseSorting fa QVal.vNull = .ok [("id", "DESC")]) ∧
    (∀ (fa : List String) (fields : List (String × QVal)),
      parseSorting fa (QVal.vObj fields) = .ok [("id", "DESC")]) ∧
    (∀ (fa : List String) (s : String) (lst : Bool),
      (parseFilters fa [("sort", QVal.vStr s)] lst).order
        = some (specSortOrder fa (jsSplit s '|'))) ∧
    parseSorting ["name", "created_at"] (QVal.vStr "name|created_at-")
      = .ok [("name", "ASC"), ("created_at", "DESC")] := by
  have hstr : ∀ (fa : List String) (s : String),
      parseSorting fa (QVal.vStr s) = .ok (specSortOrder fa (jsSplit s '|')) := by
    intro fa s
    simp only [parseSorting, specSortOrder]
    rw [sortLoop_spec fa (jsSplit s '|')]
    simp [Except.map]
  refine ⟨hstr, ?_, fun _ _ => rfl, fun _ => rfl, fun _ _ => rfl, ?_, rfl⟩
  · intro fa toks
    simp only [parseSorting, specSortOrder]
    rw [sortLoop_spec fa toks]
    simp [Except.map]
  · intro fa s lst
    have hsort : sortStage fa FOptions.init "sort" (QVal.vStr s)
        = .ok (FOptions.init.setOrder (specSortOrder fa (jsSplit s '|'))) := by
      unfold sortStage
      rw [if_pos (by decide), hstr fa s]
      simp [Except.map]
    have hstep : frStep fa [("sort", QVal.vStr s)] lst FOptions.init "sort"
        (QVal.vStr s)
        = .ok (FOptions.init.setOrder (specSortOrder fa (jsSplit s '|'))) := by
      unfold frStep
      rw [hsort]
      simp only [exceptBind_ok]
      have hattr : attrsStage
          (FOptions.init.setOrder (specSortOrder fa (jsSplit s '|'))) "sort"
          (QVal.vStr s)
          = FOptions.init.setOrder (specSortOrder fa (jsSplit s '|')) := by
        unfold attrsStage
        rw [if_neg (by decide)]
      rw [hattr]
      cases lst
      · rw [if_neg (by simp)]
      · rw [if_pos rfl]
        exact listStage000_sort fa _ _ s
    unfold parseFilters
    rw [runKeys_cons_ok hstep]
    simp [runKeys]

/-- C8 counterexample: with `sort` absent, no sort order is set at all —
not the claimed `[(id, DESC)]` fallback. -/
theorem c8_counterexample :
    (parseFilters ["id"] ([] : List (String × QVal)) true).order = none ∧
    (parseFilters ["id"] ([] : List (String × QVal)) true).order
      ≠ some [("id", "DESC")] :=
  ⟨rfl, by decide⟩


/-- A boolean known to be `false` is not `true`. -/
theorem neBoolTrue {b : Bool} (h : b = false) : ¬ (b = true) :=
  fun hc => Bool.false_ne_true (h ▸ hc)

/-- The `if (list)` block maps a present-but-null value to the
`IS NULL` branch for every non-pagination key. -/
theorem listStage000_null {fa : List String} {q : List (String × QVal)}
    {st : FOptions} {k : String}
    (h1 : (k == "page") = false) (h2 : (k == "size") = false) :
    listStage000 fa q st k QVal.vNull
      = .ok (addIfAllowed fa st (jsReplaceFirst k "__is") WhereVal.isNull) := by
  unfold listStage000
  rw [if_neg (neBoolTrue h1), if_neg (neBoolTrue h2),
    if_neg (by decide), if_pos (by decide)]

/-- A key with a falsy non-null value (`0` or `""`) that is none of the
reserved keys is a no-op for the step. -/
theorem frStep_falsy_id {fa : List String} {q : List (String × QVal)}
    {lst : Bool} {k : String} {v : QVal}
    (h1 : (k == "page") = false) (h2 : (k == "size") = false)
    (h3 : (k == "sort") = false) (h4 : (k == "attributes") = false)
    (hv : v = QVal.vNum 0 ∨ v = QVal.vStr "") :
    ∀ st : FOptions, frStep fa q lst st k v = .ok st := by
  intro st
  have ht : truthy v = false := by
    rcases hv with rfl | rfl
    · rfl
    · rfl
  have hn : isNullish v = false := by
    rcases hv with rfl | rfl
    · rfl
    · rfl
  cases lst
  · unfold frStep sortStage attrsStage
    rw [if_neg (neBoolTrue h3)]
    simp only [exceptBind_ok]
    rw [if_neg (neBoolTrue h4), if_neg (by simp)]
  · unfold frStep sortStage attrsStage listStage000
    rw [if_neg (neBoolTrue h3)]
    simp only [exceptBind_ok]
    rw [if_neg (neBoolTrue h4), if_pos True.intro, if_neg (neBoolTrue h1),
      if_neg (neBoolTrue h2), if_neg (neBoolTrue ht), if_neg (neBoolTrue hn)]

/-- Removing a key never looked up leaves `query[tgt]` unchanged. -/
theorem jsLookup_erase {k : String} {v : QVal} (tgt : String)
    (hne : (k == tgt) = false) :
    ∀ (q1 q2 : List (String × QVal)),
      jsLookup (q1 ++ (k, v) :: q2) tgt = jsLookup (q1 ++ q2) tgt
  | [], q2 => by
    simp only [List.nil_append, jsLookup]
    rw [if_neg (by simp [hne])]
  | (k', v') :: q1', q2 => by
    simp only [List.cons_append, jsLookup]
    by_cases c : (k' == tgt) = true
    · rw [if_pos c, if_pos c]
    · rw [if_neg c, if_neg c]
      exact jsLookup_erase tgt hne q1' q2

/-- `frStep` reads the query object only at `page` and `size`. -/
theorem frStep_q_congr {fa : List String} {q q' : List (String × QVal)}
    {lst : Bool}
    (hp : jsLookup q "page" = jsLookup q' "page")
    (hsz : jsLookup q "size" = jsLookup q' "size") :
    ∀ (st : FOptions) (k : String) (v : QVal),
      frStep fa q lst st k v = frStep fa q' lst st k v := by
  intro st k v
  unfold frStep listStage000
  rw [hp, hsz]

/-- Erasing a key whose step is the identity from a run. -/
theorem runKeys_erase
    {step : FOptions → String → QVal → Except Unit FOptions}
    {k : String} {v : QVal} {q2 : List (String × QVal)}
    (hid : ∀ st, step st k v = .ok st) :
    ∀ (q1 : List (String × QVal)) (st : FOptions),
      runKeys step (q1 ++ (k, v) :: q2) st = runKeys step (q1 ++ q2) st
  | [], st => runKeys_cons_ok (hid st)
  | (k', v') :: q1', st => by
    rw [List.cons_append, List.cons_append]
    cases hs : step st k' v' with
    | ok st2 =>
      rw [runKeys_cons_ok hs, runKeys_cons_ok hs]
      exact runKeys_erase hid q1' st2
    | error e =>
      cases e
      rw [runKeys_error_cons hs, runKeys_error_cons hs]

/-- C9 (corrected): in list mode a null value whose base field (after
stripping `__is`) is allow-listed compiles to an `IS NULL` clause; and a
key with value `0` or `""` that is NOT one of the reserved keys
(`page`, `size`, `sort`, `attributes`) contributes nothing: compiling
with it equals compiling without it. (Reserved keys with falsy values
are not inert — see the counterexample.) -/
theorem c9_null_and_falsy :
    (∀ (fa : List String) (k : String),
      (k == "page") = false → (k == "size") = false →
      fa.contains (jsReplaceFirst k "__is") = true →
      (parseFilters fa [(k, QVal.vNull)] true).whereClauses
        = [(jsReplaceFirst k "__is", WhereVal.isNull)]) ∧
    (∀ (fa : List String) (lst : Bool) (q1 q2 : List (String × QVal))
       (k : String) (v : QVal),
      (k == "page") = false → (k == "size") = false →
      (k == "sort") = false → (k == "attributes") = false →
      (v = QVal.vNum 0 ∨ v = QVal.vStr "") →
      parseFilters fa (q1 ++ (k, v) :: q2) lst
        = parseFilters fa (q1 ++ q2) lst) := by
  constructor
  · intro fa k h1 h2 hfa
    cases hs : sortStage fa FOptions.init k QVal.vNull with
    | error e =>
      exfalso
      unfold sortStage at hs
      by_cases c : (k == "sort") = true
      · rw [if_pos c] at hs
        simp [parseSorting, Except.map] at hs
      · rw [if_neg c] at hs
        simp at hs
    | ok s1 =>
      have hstep : frStep fa [(k, QVal.vNull)] true FOptions.init k QVal.vNull
          = .ok (addIfAllowed fa (attrsStage s1 k QVal.vNull)
              (jsReplaceFirst k "__is") WhereVal.isNull) := by
        unfold frStep
        rw [hs]
        simp only [exceptBind_ok]
        rw [if_pos True.intro]
        exact listStage000_null h1 h2
      unfold parseFilters
      rw [runKeys_cons_ok hstep]
      obtain ⟨w1, _, _, _, _, _⟩ := sortStage_ok hs
      unfold addIfAllowed
      rw [if_pos hfa]
      simp [runKeys, w1, setAssoc]
  · intro fa lst q1 q2 k v h1 h2 h3 h4 hv
    unfold parseFilters
    rw [runKeys_congr
      (frStep_q_congr (jsLookup_erase "page" h1 q1 q2)
        (jsLookup_erase "size" h2 q1 q2)) (q1 ++ (k, v) :: q2) FOptions.init]
    exact runKeys_erase (frStep_falsy_id h1 h2 h3 h4 hv) q1 FOptions.init

/-- C9 witness: `name__is = null` emits `IS NULL` on `name`; the falsy
key `x = 0` is inert. -/
theorem c9_null_and_falsy_witness :
    (parseFilters ["name"] [("name__is", QVal.vNull)] true).whereClauses
      = [("name", WhereVal.isNull)] ∧
    parseFilters ["name"]
        ([("name__con", QVal.vStr "jo")] ++ ("x", QVal.vNum 0) :: []) true
      = parseFilters ["name"] ([("name__con", QVal.vStr "jo")] ++ []) true :=
  ⟨c9_null_and_falsy.1 ["name"] "name__is" rfl rfl rfl,
   c9_null_and_falsy.2 ["name"] true [("name__con", QVal.vStr "jo")] []
     "x" (QVal.vNum 0) rfl rfl rfl rfl (Or.inl rfl)⟩

/-- C9 counterexample: the reserved key `page` with the falsy value `0`
is NOT treated as absent — it sets `offset` (to `NaN`, since `size` is
missing). -/
theorem c9_counterexample :
    (parseFilters [] [("page", QVal.vNum 0)] true).offset = some JSNum.nan ∧
    (parseFilters [] ([] : List (String × QVal)) true).offset = none :=
  ⟨rfl, rfl⟩

/-- The key carries one of the suffixes the relation-aware variant does
NOT recognise (`__gte`, `__lte`, `__nin`, `__bet`) and none of the six
it does. -/
def relIgnoredKey (k : String) : Prop :=
  (jsIncludes k "__gte" = true ∨ jsIncludes k "__lte" = true ∨
   jsIncludes k "__nin" = true ∨ jsIncludes k "__bet" = true) ∧
  jsIncludes k "__in" = false ∧ jsIncludes k "__con" = false ∧
  jsIncludes k "__sw" = false ∧ jsIncludes k "__ew" = false ∧
  jsIncludes k "__is" = false ∧ jsIncludes k "__ne" = false

/-- When none of the six recognised suffixes occurs in the key, the
relation-aware list block never touches the `where` object. -/
theorem listStageI_noSuffix_where {fa : List String}
    {q : List (String × QVal)} {childC : List (String × QVal) → FOptions}
    {st : FOptions} {k : String} {v : QVal} {st' : FOptions}
    (hin : jsIncludes k "__in" = false) (hcon : jsIncludes k "__con" = false)
    (hsw : jsIncludes k "__sw" = false) (hew : jsIncludes k "__ew" = false)
    (his : jsIncludes k "__is" = false) (hne : jsIncludes k "__ne" = false)
    (h : listStageI fa q childC st k v = .ok st') :
    st'.whereClauses = st.whereClauses := by
  unfold listStageI at h
  by_cases c1 : (k == "page") = true
  · rw [if_pos c1] at h
    cases h
    simp
  · rw [if_neg c1] at h
    by_cases c2 : (k == "size") = true
    · rw [if_pos c2] at h
      cases h
      simp
    · rw [if_neg c2] at h
      by_cases c3 : truthy v = true
      · rw [if_pos c3] at h
        by_cases c4 : (jsStartsWith k "include_") = true
        · rw [if_pos c4] at h
          cases h
          simp
        · rw [if_neg c4, if_neg (neBoolTrue hin), if_neg (neBoolTrue hcon),
            if_neg (neBoolTrue hsw), if_neg (neBoolTrue hew),
            if_neg (neBoolTrue his), if_neg (neBoolTrue hne)] at h
          cases h
          rfl
      · rw [if_neg c3] at h
        cases h
        rfl

/-- The relation-aware list block never touches `where` for a null
value (there is no `== null` branch in `parseFiltersInclude`). -/
theorem listStageI_null_where {fa : List String}
    {q : List (String × QVal)} {childC : List (String × QVal) → FOptions}
    {st : FOptions} {k : String} {st' : FOptions}
    (h : listStageI fa q childC st k QVal.vNull = .ok st') :
    st'.whereClauses = st.whereClauses := by
  unfold listStageI at h
  by_cases c1 : (k == "page") = true
  · rw [if_pos c1] at h
    cases h
    simp
  · rw [if_neg c1] at h
    by_cases c2 : (k == "size") = true
    · rw [if_pos c2] at h
      cases h
      simp
    · rw [if_neg c2, if_neg (by decide)] at h
      cases h
      rfl

/-- Glue: a single-key relation-aware compile whose list block preserves
`where` produces an empty predicate. -/
theorem piSingle_where_empty {fa : List String} {k : String} {v : QVal}
    (hL : ∀ (q : List (String × QVal))
        (childC : List (String × QVal) → FOptions) (st st' : FOptions),
        listStageI fa q childC st k v = .ok st' →
        st'.whereClauses = st.whereClauses) :
    (parseFiltersInclude fa [(k, v)] true).whereClauses = [] := by
  unfold parseFiltersInclude
  cases hstep : piStep fa [(k, v)]
      (fun nested => parseFiltersIncludeSingle fa nested) true
      FOptions.init k v with
  | error e =>
    cases e
    rw [runKeys_error_cons hstep]
    rfl
  | ok st' =>
    rw [runKeys_cons_ok hstep]
    show st'.whereClauses = []
    obtain ⟨s1, hs, hrest⟩ := piStep_ok_elim hstep
    rcases hrest with ⟨_, hL'⟩ | ⟨hfalse, _⟩
    · obtain ⟨w1, _⟩ := sortStage_ok hs
      rw [hL' |> hL _ _ _ _]
      simp [w1]
    · exact absurd hfalse (by simp)

/-- C10 (confirmed): the relation-aware variant recognises only `__in`,
`__con`, `__sw`, `__ew`, `__is`, `__ne` — a key carrying `__gte`,
`__lte`, `__nin` or `__bet` (and none of the six), and any key with a
null value, emits no predicate clause, for every value and allow-list;
unlike the flat variant, which does emit a clause for `status__gte`. -/
theorem c10_relation_suffix_set :
    (∀ (fa : List String) (k : String) (v : QVal), relIgnoredKey k →
      (parseFiltersInclude fa [(k, v)] true).whereClauses = []) ∧
    (∀ (fa : List String) (k : String),
      (parseFiltersInclude fa [(k, QVal.vNull)] true).whereClauses = []) ∧
    (parseFilters ["status"] [("status__gte", QVal.vStr "1")] true).whereClauses
      = [("status", WhereVal.eq (QVal.vStr "1"))] ∧
    (parseFiltersT ["status"] [("status__gte", QVal.vStr "1")] true).whereClauses
      = [("status", WhereVal.opGte (QVal.vStr "1"))] := by
  refine ⟨?_, ?_, rfl, rfl⟩
  · intro fa k v hk
    obtain ⟨_, hin, hcon, hsw, hew, his, hne⟩ := hk
    exact piSingle_where_empty
      (fun q c st st' h =>
        listStageI_noSuffix_where hin hcon hsw hew his hne h)
  · intro fa k
    exact piSingle_where_empty (fun q c st st' h => listStageI_null_where h)

/-- C10 witness: `status__gte = "1"` and a null `status__is` emit no
clause in the relation-aware variant even with `status` allow-listed. -/
theorem c10_relation_suffix_set_witness :
    (parseFiltersInclude ["status"] [("status__gte", QVal.vStr "1")]
        true).whereClauses = [] ∧
    (parseFiltersInclude ["status"] [("status__is", QVal.vNull)]
        true).whereClauses = [] :=
  ⟨c10_relation_suffix_set.1 ["status"] "status__gte" (QVal.vStr "1")
      ⟨Or.inl rfl, rfl, rfl, rfl, rfl, rfl, rfl⟩,
   c10_relation_suffix_set.2.1 ["status"] "status__is"⟩
